import Mathlib

/-!
# ET-serial_protocol: framing protocol over a UART byte stream

A shallow embedding of `serial_protocol.c` / `serial_protocol.h`.

* Bytes (`uint8_t`) and indices (`uint16_t`) are natural numbers; every place where
  the C code truncates to 8 bits carries an explicit `% 256`.
* The protocol structure is passed explicitly: every function that takes a
  `SerialProtocol_t *` returns the structure it leaves behind.
* Arrays are lists; `a[i] = v` is `List.set`, `a[i]` is `List.getD _ i 0`. A store
  outside an array would leave the list as it is; `reachable_inv` shows that the array
  sizes and the stored lengths keep their declared bounds in every reachable state.
* The `while` loop of `SerialProtocol_Process` is a structurally recursive function
  with an iteration budget; running out of budget is reported as `none`, and
  `process_eq_parse` shows that the budget used is always enough on a well-formed ring.
* Locals that C leaves uninitialised (`byte` in `SerialProtocol_Process`, `frame` in
  `SerialProtocol_Send`) start as zeros; they are written before they are read.
* The HAL transmit routine is a parameter of `SerialProtocol_Send`. Its `uint8_t`
  parameter `data_len` receives the caller's value modulo 256.
  `SerialProtocol_StartReceive` and `SerialProtocol_StopReceive` only call the HAL and
  leave the structure alone; they have no counterpart here.
-/

namespace SerialProtocol

/-! ## Constants of `serial_protocol.h` -/

abbrev FRAME_HEAD : Nat := 0xAA
abbrev FRAME_TAIL : Nat := 0xBB
abbrev MAX_DATA_LENGTH : Nat := 255
abbrev RX_BUFFER_SIZE : Nat := 512

/-- Receiver states, `RxState_t`. -/
inductive RxState_t where
  | RX_STATE_IDLE
  | RX_STATE_HEAD_FOUND
  | RX_STATE_LENGTH_RECEIVED
  | RX_STATE_DATA_RECEIVING
  | RX_STATE_FRAME_COMPLETE
  deriving DecidableEq

open RxState_t

/-- Protocol control block, `SerialProtocol_t`. The UART handle pointer is kept as an
opaque number. -/
structure SerialProtocol_t where
  huart : Nat
  rx_buffer : List Nat
  rx_head : Nat
  rx_tail : Nat
  rx_byte : Nat
  rx_state : RxState_t
  expected_length : Nat
  received_length : Nat
  frame_data : List Nat
  frame_length : Nat
  frame_checksum : Nat
  frame_ready : Nat
  deriving DecidableEq

/-- Result codes of the HAL, `HAL_StatusTypeDef`. -/
inductive HAL_StatusTypeDef where
  | HAL_OK
  | HAL_ERROR
  | HAL_BUSY
  | HAL_TIMEOUT
  deriving DecidableEq

/-- One call of `HAL_UART_Transmit(huart, pData, Size, Timeout)`: `pData` is the memory
the pointer designates, `Size` the number of bytes the transport is asked to send. -/
structure TxCall where
  huart : Nat
  pData : List Nat
  Size : Nat
  Timeout : Nat
  deriving DecidableEq

/-- The bytes a transmit call puts on the wire: the first `Size` bytes at `pData`. -/
def TxCall.wire (c : TxCall) : List Nat := c.pData.take c.Size

/-! ## Checksum -/

/-- The accumulation loop of `calculate_checksum`: `sum` (a `uint16_t`) after the
iterations `i = 0 .. len - 1`. -/
def checksumLoop (data : List Nat) : Nat → Nat
  | 0 => 0
  | i + 1 => (checksumLoop data i + data.getD i 0) % 65536

/-- The C function `calculate_checksum(data, len)`; `len` is the `uint8_t` argument,
already truncated by the caller. -/
def calculate_checksum (data : List Nat) (len : Nat) : Nat :=
  (checksumLoop data len &&& 0xFF) % 256

/-! ## Initialisation and ring buffer -/

/-- The C function `SerialProtocol_Init`: `rx_byte` and `frame_checksum` keep whatever
the structure held before. -/
def SerialProtocol_Init (protocol : SerialProtocol_t) (huart : Nat) : SerialProtocol_t :=
  { protocol with
    huart := huart
    rx_head := 0
    rx_tail := 0
    rx_state := RX_STATE_IDLE
    expected_length := 0
    received_length := 0
    frame_length := 0
    frame_ready := 0
    rx_buffer := List.replicate RX_BUFFER_SIZE 0
    frame_data := List.replicate MAX_DATA_LENGTH 0 }

/-- The C function `buffer_write`. -/
def buffer_write (protocol : SerialProtocol_t) (byte : Nat) : SerialProtocol_t :=
  let p1 := { protocol with rx_buffer := protocol.rx_buffer.set protocol.rx_head byte }
  let p2 := { p1 with rx_head := (p1.rx_head + 1) % RX_BUFFER_SIZE }
  if p2.rx_head = p2.rx_tail then
    { p2 with rx_tail := (p2.rx_tail + 1) % RX_BUFFER_SIZE }
  else p2

/-- The C function `buffer_read(protocol, &byte)`: returns the status, the content of
`byte` afterwards and the structure. -/
def buffer_read (protocol : SerialProtocol_t) (byte : Nat) : Nat × Nat × SerialProtocol_t :=
  if protocol.rx_head = protocol.rx_tail then
    (0, byte, protocol)
  else
    (1, protocol.rx_buffer.getD protocol.rx_tail 0,
      { protocol with rx_tail := (protocol.rx_tail + 1) % RX_BUFFER_SIZE })

/-- The C function `buffer_available`. -/
def buffer_available (protocol : SerialProtocol_t) : Nat :=
  if protocol.rx_head ≠ protocol.rx_tail then 1 else 0

/-- The C function `SerialProtocol_RxCallback`: stores the byte the HAL left in
`rx_byte`; re-arming the reception belongs to the HAL. -/
def SerialProtocol_RxCallback (protocol : SerialProtocol_t) : SerialProtocol_t :=
  buffer_write protocol protocol.rx_byte

/-! ## Encoder -/

/-- The copy loop of `SerialProtocol_Send`: `frame[2 + i] = data[i]` for
`i = 0 .. n - 1`. -/
def sendCopyLoop (data : List Nat) : Nat → List Nat → List Nat
  | 0, frame => frame
  | i + 1, frame => (sendCopyLoop data i frame).set (2 + i) (data.getD i 0)

/-- The local array `frame` of `SerialProtocol_Send` once it is filled in. The array
has `4 + MAX_DATA_LENGTH` cells; cells the function does not write are shown as 0. -/
def sendFrame (data : List Nat) (data_len : Nat) : List Nat :=
  let frame0 := List.replicate (4 + MAX_DATA_LENGTH) 0
  let frame1 := frame0.set 0 FRAME_HEAD
  let frame2 := frame1.set 1 data_len
  let frame3 := sendCopyLoop data data_len frame2
  let frame4 := frame3.set (2 + data_len)
    (calculate_checksum (frame3.drop 1) ((1 + data_len) % 256))
  frame4.set (3 + data_len) FRAME_TAIL

/-- The local `uint8_t frame_len = 4 + data_len` of `SerialProtocol_Send`. -/
def sendFrameLen (data_len : Nat) : Nat := (4 + data_len) % 256

/-- Outcome of `SerialProtocol_Send`: return value, the structure, and the calls made
to `HAL_UART_Transmit`. -/
structure SendResult where
  ret : Int
  protocol : SerialProtocol_t
  calls : List TxCall

/-- The C function `SerialProtocol_Send`; `transmit` stands for `HAL_UART_Transmit`. The
argument `data_len` is the value the caller writes; the parameter is a `uint8_t`, so the
function body sees it modulo 256. -/
def SerialProtocol_Send (transmit : TxCall → HAL_StatusTypeDef)
    (protocol : SerialProtocol_t) (data : List Nat) (data_len : Nat) (timeout : Nat) :
    SendResult :=
  let data_len := data_len % 256
  if data_len > MAX_DATA_LENGTH then
    { ret := -1, protocol := protocol, calls := [] }
  else
    let frame := sendFrame data data_len
    let frame_len := sendFrameLen data_len
    let call : TxCall :=
      { huart := protocol.huart, pData := frame, Size := frame_len, Timeout := timeout }
    if transmit call = HAL_StatusTypeDef.HAL_OK then
      { ret := 0, protocol := protocol, calls := [call] }
    else
      { ret := -1, protocol := protocol, calls := [call] }

/-! ## Parser -/

/-- The `switch` of `SerialProtocol_Process` for one byte read from the ring buffer.
The first component is `some 0` when the C code executes `return 0`. -/
def rxStep (protocol : SerialProtocol_t) (byte : Nat) : Option Int × SerialProtocol_t :=
  match protocol.rx_state with
  | RX_STATE_IDLE =>
    if byte = FRAME_HEAD then
      (none, { protocol with rx_state := RX_STATE_HEAD_FOUND, received_length := 0 })
    else (none, protocol)
  | RX_STATE_HEAD_FOUND =>
    if byte ≤ MAX_DATA_LENGTH then
      (none, { protocol with expected_length := byte, rx_state := RX_STATE_LENGTH_RECEIVED })
    else (none, { protocol with rx_state := RX_STATE_IDLE })
  | RX_STATE_LENGTH_RECEIVED =>
    if protocol.expected_length = 0 then
      let expected_checksum := calculate_checksum [protocol.expected_length] 1
      if byte = expected_checksum then
        (none, { protocol with rx_state := RX_STATE_DATA_RECEIVING })
      else (none, { protocol with rx_state := RX_STATE_IDLE })
    else
      let p1 := { protocol with
        frame_data := protocol.frame_data.set protocol.received_length byte }
      let p2 := { p1 with received_length := (p1.received_length + 1) % 256 }
      if p2.received_length ≥ p2.expected_length then
        (none, { p2 with rx_state := RX_STATE_DATA_RECEIVING })
      else (none, p2)
  | RX_STATE_DATA_RECEIVING =>
    if protocol.received_length = protocol.expected_length then
      let c0 := calculate_checksum [protocol.expected_length] 1
      let c1 := (c0 + calculate_checksum protocol.frame_data protocol.expected_length) % 256
      let expected_checksum := c1 &&& 0xFF
      if byte = expected_checksum then
        (none, { protocol with
          frame_checksum := byte
          received_length := (protocol.received_length + 1) % 256 })
      else (none, { protocol with rx_state := RX_STATE_IDLE })
    else
      if byte = FRAME_TAIL then
        (some 0, { protocol with
          frame_length := protocol.expected_length
          frame_ready := 1
          rx_state := RX_STATE_FRAME_COMPLETE })
      else (none, { protocol with rx_state := RX_STATE_IDLE })
  | RX_STATE_FRAME_COMPLETE => (none, protocol)

/-- The `while` loop of `SerialProtocol_Process` with an iteration budget; `byte` is
the local variable of that name. `none` means the budget ran out. -/
def processLoop : Nat → SerialProtocol_t → Nat → Option (Int × SerialProtocol_t)
  | 0, _, _ => none
  | fuel + 1, protocol, byte =>
    if buffer_available protocol ≠ 0 then
      match buffer_read protocol byte with
      | (0, _, p1) => some (1, p1)
      | (_, b, p1) =>
        match rxStep p1 b with
        | (some r, p2) => some (r, p2)
        | (none, p2) => processLoop fuel p2 b
    else some (1, protocol)

/-- The C function `SerialProtocol_Process`. The budget is `RX_BUFFER_SIZE` iterations:
the ring buffer holds at most `RX_BUFFER_SIZE - 1` bytes and the last test of the loop
condition takes one more. The local `byte` starts as 0 (it is written before it is
read). -/
def SerialProtocol_Process (protocol : SerialProtocol_t) : Option (Int × SerialProtocol_t) :=
  processLoop RX_BUFFER_SIZE protocol 0

/-! ## Inbox -/

/-- The copy loop of `SerialProtocol_GetReceivedFrame`: `data[i] = frame_data[i]` for
`i = 0 .. n - 1`. -/
def getCopyLoop (frame_data : List Nat) : Nat → List Nat → List Nat
  | 0, data => data
  | i + 1, data => (getCopyLoop frame_data i data).set i (frame_data.getD i 0)

/-- Outcome of `SerialProtocol_GetReceivedFrame`: return value, the structure, and the
caller's `data` buffer and `*data_len` afterwards. -/
structure GetResult where
  ret : Int
  protocol : SerialProtocol_t
  data : List Nat
  data_len : Nat
  deriving DecidableEq

/-- The C function `SerialProtocol_GetReceivedFrame(protocol, data, data_len)`; `data`
and `data_len` are what the caller's buffers hold on entry. -/
def SerialProtocol_GetReceivedFrame (protocol : SerialProtocol_t) (data : List Nat)
    (data_len : Nat) : GetResult :=
  if protocol.frame_ready = 0 then
    { ret := -1, protocol := protocol, data := data, data_len := data_len }
  else
    { ret := 0
      protocol := { protocol with frame_ready := 0, rx_state := RX_STATE_IDLE }
      data := getCopyLoop protocol.frame_data protocol.frame_length data
      data_len := protocol.frame_length }

/-! ## Vocabulary for the statements -/

/-- Successive `buffer_write` calls, one per byte, in order. -/
def writeAll (protocol : SerialProtocol_t) (bytes : List Nat) : SerialProtocol_t :=
  bytes.foldl buffer_write protocol

/-- State after `k` successive `buffer_read` calls (`byte` is threaded through). -/
def readState : Nat → SerialProtocol_t → Nat → Nat × SerialProtocol_t
  | 0, protocol, byte => (byte, protocol)
  | k + 1, protocol, byte =>
    let r := buffer_read protocol byte
    readState k r.2.2 r.2.1

/-- The (status, byte) pairs returned by `k` successive `buffer_read` calls. -/
def readMany : Nat → SerialProtocol_t → Nat → List (Nat × Nat)
  | 0, _, _ => []
  | k + 1, protocol, byte =>
    let r := buffer_read protocol byte
    (r.1, r.2.1) :: readMany k r.2.2 r.2.1

/-- Cells of the ring read in order: `n` cells starting at index `t`. -/
def ringTake (buf : List Nat) : Nat → Nat → List Nat
  | 0, _ => []
  | n + 1, t => buf.getD t 0 :: ringTake buf n ((t + 1) % RX_BUFFER_SIZE)

/-- Number of unread bytes, `(rx_head - rx_tail) mod RX_BUFFER_SIZE`. -/
def ringCount (protocol : SerialProtocol_t) : Nat :=
  (protocol.rx_head + RX_BUFFER_SIZE - protocol.rx_tail) % RX_BUFFER_SIZE

/-- The unread bytes of the ring buffer, oldest first. -/
def ringContents (protocol : SerialProtocol_t) : List Nat :=
  ringTake protocol.rx_buffer (ringCount protocol) protocol.rx_tail

/-- Well-formed ring: the array has its declared size and both indices are inside. -/
structure RingOK (protocol : SerialProtocol_t) : Prop where
  len : protocol.rx_buffer.length = RX_BUFFER_SIZE
  head : protocol.rx_head < RX_BUFFER_SIZE
  tail : protocol.rx_tail < RX_BUFFER_SIZE

/-- The last `k` elements of a list. -/
def lastN (k : Nat) (l : List Nat) : List Nat := l.drop (l.length - k)

/-- Sum of a list of bytes. -/
def byteSum (l : List Nat) : Nat := l.sum

/-- Wire format of a payload per the frame layout:
`HEAD, LEN, PAYLOAD.., (LEN + sum PAYLOAD) mod 256, TAIL`. -/
def wireFrame (p : List Nat) : List Nat :=
  [FRAME_HEAD, p.length] ++ p ++ [(p.length + byteSum p) % 256, FRAME_TAIL]

/-- The structure with its read index replaced. -/
def withTail (s : SerialProtocol_t) (t : Nat) : SerialProtocol_t :=
  { s with rx_tail := t }

/-- The state `buffer_read` leaves when the ring is not empty. -/
def popTail (s : SerialProtocol_t) : SerialProtocol_t :=
  { s with rx_tail := (s.rx_tail + 1) % RX_BUFFER_SIZE }

/-- The state machine of `SerialProtocol_Process` run over a list of bytes, without the
ring: the result is the return value, the structure, and the bytes left unread. -/
def parse : List Nat → SerialProtocol_t → Int × SerialProtocol_t × List Nat
  | [], s => (1, s, [])
  | b :: rest, s =>
    match rxStep s b with
    | (some r, s1) => (r, s1, rest)
    | (none, s1) => parse rest s1

/-- Successive stores `fd[r] = b`, `r` growing by one per byte: what the payload branch of
the parser does to `frame_data`. -/
def writeCells : List Nat → Nat → List Nat → List Nat
  | fd, _, [] => fd
  | fd, r, b :: q => writeCells (fd.set r b) (r + 1) q

/-- The parser fields after a frame with payload `p` has been accepted, starting from `s`. -/
def afterFrame (s : SerialProtocol_t) (p : List Nat) : SerialProtocol_t :=
  { s with
    rx_state := RX_STATE_FRAME_COMPLETE
    expected_length := p.length
    received_length := (p.length + 1) % 256
    frame_data := writeCells s.frame_data 0 p
    frame_length := p.length
    frame_checksum := (p.length + byteSum p) % 256
    frame_ready := 1 }

/-- The HAL stores a received byte in `rx_byte` and runs the receive callback. -/
def deliver (s : SerialProtocol_t) (b : Nat) : SerialProtocol_t :=
  SerialProtocol_RxCallback { s with rx_byte := b }

/-- States the protocol structure can be in: initialised once, then any interleaving of
received bytes (the callback), `SerialProtocol_Process`, `SerialProtocol_GetReceivedFrame`
and `SerialProtocol_Send`. -/
inductive Reachable : SerialProtocol_t → Prop where
  | init (p0 : SerialProtocol_t) (h : Nat) : Reachable (SerialProtocol_Init p0 h)
  | rx (s : SerialProtocol_t) (b : Nat) : Reachable s → b < 256 → Reachable (deliver s b)
  | process (s s1 : SerialProtocol_t) (r : Int) :
      Reachable s → SerialProtocol_Process s = some (r, s1) → Reachable s1
  | get (s : SerialProtocol_t) (data : List Nat) (dl : Nat) :
      Reachable s → Reachable (SerialProtocol_GetReceivedFrame s data dl).protocol
  | send (s : SerialProtocol_t) (transmit : TxCall → HAL_StatusTypeDef) (data : List Nat)
      (dl timeout : Nat) :
      Reachable s → Reachable (SerialProtocol_Send transmit s data dl timeout).protocol

/-- What holds of the structure in every reachable state: the ring is well formed, the
payload array has its declared size, and both stored lengths fit it. -/
structure ProtoInv (s : SerialProtocol_t) : Prop where
  ring : RingOK s
  fd : s.frame_data.length = MAX_DATA_LENGTH
  el : s.expected_length ≤ MAX_DATA_LENGTH
  fl : s.frame_length ≤ MAX_DATA_LENGTH

/-- A transport that always reports success. -/
def okTransmit : TxCall → HAL_StatusTypeDef := fun _ => HAL_StatusTypeDef.HAL_OK

/-- All bytes a `SerialProtocol_Send` call handed to the transport. -/
def sentBytes (r : SendResult) : List Nat :=
  r.calls.foldr (fun c acc => c.wire ++ acc) []

/-- The round trip of the encoder output through the receiver: the bytes sent for
payload `p` are written one at a time into a freshly initialised protocol, then
`SerialProtocol_Process` and `SerialProtocol_GetReceivedFrame` run once each. The result
is the return value of `SerialProtocol_Process` and the outcome of
`SerialProtocol_GetReceivedFrame`. -/
def roundTrip (p0 : SerialProtocol_t) (h : Nat) (p data : List Nat) (dl : Nat) :
    Option (Int × GetResult) :=
  let sent := sentBytes (SerialProtocol_Send okTransmit p0 p p.length 0)
  match SerialProtocol_Process (writeAll (SerialProtocol_Init p0 h) sent) with
  | none => none
  | some (r, s1) => some (r, SerialProtocol_GetReceivedFrame s1 data dl)

/-- A structure as it may be before `SerialProtocol_Init` runs: arbitrary content. -/
def staleProtocol : SerialProtocol_t :=
  { huart := 3, rx_buffer := [9, 9], rx_head := 700, rx_tail := 2, rx_byte := 0x41,
    rx_state := RX_STATE_DATA_RECEIVING, expected_length := 4, received_length := 9,
    frame_data := [1], frame_length := 8, frame_checksum := 0x55, frame_ready := 1 }

/-- The structure after `SerialProtocol_Init`, the five bytes `AA 01 07 08 BB` received
through the callback, and one `SerialProtocol_Process`: the frame with payload `07` is
pending. -/
def pendingProtocol : SerialProtocol_t :=
  { huart := 1, rx_buffer := [0xAA, 0x01, 0x07, 0x08, 0xBB] ++ List.replicate 507 0,
    rx_head := 5, rx_tail := 5, rx_byte := 0xBB,
    rx_state := RX_STATE_FRAME_COMPLETE, expected_length := 1, received_length := 2,
    frame_data := 0x07 :: List.replicate 254 0, frame_length := 1, frame_checksum := 0x08,
    frame_ready := 1 }

/-- What holds of the parser fields in every reachable state: the ready flag is 1 exactly
in FrameComplete, where the published length is the expected length; the payload counter
is 0 in HeadFound and below the expected length while a non-empty payload is being
received. -/
structure ParserInv (s : SerialProtocol_t) : Prop where
  ready : (s.frame_ready = 1 ∧ s.rx_state = RX_STATE_FRAME_COMPLETE ∧
      s.frame_length = s.expected_length) ∨
    (s.frame_ready = 0 ∧ s.rx_state ≠ RX_STATE_FRAME_COMPLETE)
  hf : s.rx_state = RX_STATE_HEAD_FOUND → s.received_length = 0
  lr : s.rx_state = RX_STATE_LENGTH_RECEIVED → 0 < s.expected_length →
    s.received_length < s.expected_length

/-- The indices of the local array `frame` that `SerialProtocol_Send` stores to, in
program order: `frame[0]`, `frame[1]`, `frame[2 + i]` for `i < data_len`,
`frame[2 + data_len]`, `frame[3 + data_len]`. -/
def sendStoreIndices (data_len : Nat) : List Nat :=
  [0, 1] ++ (List.range data_len).map (fun i => 2 + i) ++ [2 + data_len, 3 + data_len]

/-- The structure after `SerialProtocol_Init`, the six bytes `AA 01 07 08 BB 55` received
through the callback, and one `SerialProtocol_Process`: the frame with payload `07` is
pending and the byte `55` is still unread in the ring. -/
def backlogProtocol : SerialProtocol_t :=
  { huart := 1, rx_buffer := [0xAA, 0x01, 0x07, 0x08, 0xBB, 0x55] ++ List.replicate 506 0,
    rx_head := 6, rx_tail := 5, rx_byte := 0x55,
    rx_state := RX_STATE_FRAME_COMPLETE, expected_length := 1, received_length := 2,
    frame_data := 0x07 :: List.replicate 254 0, frame_length := 1, frame_checksum := 0x08,
    frame_ready := 1 }

/-- The structure after `SerialProtocol_Init`, the three bytes `AA 03 07` received through
the callback, and one `SerialProtocol_Process`: the parser is in LengthReceived, one of
three payload bytes is stored. -/
def payloadProtocol : SerialProtocol_t :=
  { huart := 1, rx_buffer := [0xAA, 0x03, 0x07] ++ List.replicate 509 0,
    rx_head := 3, rx_tail := 3, rx_byte := 0x07,
    rx_state := RX_STATE_LENGTH_RECEIVED, expected_length := 3, received_length := 1,
    frame_data := 0x07 :: List.replicate 254 0, frame_length := 0, frame_checksum := 0x55,
    frame_ready := 0 }

/-- The structure after `SerialProtocol_Init`, the three bytes `AA 01 07` received through
the callback, and one `SerialProtocol_Process`: the payload is complete and the parser
waits for the checksum byte. -/
def checksumProtocol : SerialProtocol_t :=
  { huart := 1, rx_buffer := [0xAA, 0x01, 0x07] ++ List.replicate 509 0,
    rx_head := 3, rx_tail := 3, rx_byte := 0x07,
    rx_state := RX_STATE_DATA_RECEIVING, expected_length := 1, received_length := 1,
    frame_data := 0x07 :: List.replicate 254 0, frame_length := 0, frame_checksum := 0x55,
    frame_ready := 0 }

/-- The structure after `SerialProtocol_Init`, the byte `AA` received and processed, and
the byte `05` received: the parser is in HeadFound and the ring holds `05`. -/
def headFoundProtocol : SerialProtocol_t :=
  { huart := 1, rx_buffer := [0xAA, 0x05] ++ List.replicate 510 0,
    rx_head := 2, rx_tail := 1, rx_byte := 0x05,
    rx_state := RX_STATE_HEAD_FOUND, expected_length := 0, received_length := 0,
    frame_data := List.replicate 255 0, frame_length := 0, frame_checksum := 0x55,
    frame_ready := 0 }

/-- A frame on the wire with every field given separately:
`HEAD, len, payload.., cks, tail`. -/
def frameBytes (len : Nat) (p : List Nat) (cks tail : Nat) : List Nat :=
  [FRAME_HEAD, len] ++ p ++ [cks, tail]

/-- The parser fields once payload `p` is stored and the checksum byte is awaited,
starting from `s`. -/
def afterPayload (s : SerialProtocol_t) (p : List Nat) : SerialProtocol_t :=
  { s with
    rx_state := RX_STATE_DATA_RECEIVING
    expected_length := p.length
    received_length := p.length
    frame_data := writeCells s.frame_data 0 p }

/-- The parser fields after a frame with payload `p` was dropped at its checksum byte. -/
def afterBadChecksum (s : SerialProtocol_t) (p : List Nat) : SerialProtocol_t :=
  { afterPayload s p with rx_state := RX_STATE_IDLE }

/-- The parser fields after a frame with payload `p` was dropped at its tail byte. -/
def afterBadTail (s : SerialProtocol_t) (p : List Nat) : SerialProtocol_t :=
  { afterPayload s p with
    rx_state := RX_STATE_IDLE
    received_length := (p.length + 1) % 256
    frame_checksum := (p.length + byteSum p) % 256 }

/-- The structure after `SerialProtocol_Init` and the six bytes `AA 01 07 08 BB 55`
received through the callback, none of them processed yet: the parser is in Idle and the
ring holds the frame of payload `07` followed by the byte `55`. -/
def bufferedProtocol : SerialProtocol_t :=
  { huart := 1, rx_buffer := [0xAA, 0x01, 0x07, 0x08, 0xBB, 0x55] ++ List.replicate 506 0,
    rx_head := 6, rx_tail := 0, rx_byte := 0x55,
    rx_state := RX_STATE_IDLE, expected_length := 0, received_length := 0,
    frame_data := List.replicate 255 0, frame_length := 0, frame_checksum := 0x55,
    frame_ready := 0 }

/-- The structure after `SerialProtocol_Init` and the three bytes `AA 03 07` received
through the callback, none of them processed yet: the ring holds the start of a frame. -/
def payloadBufferedProtocol : SerialProtocol_t :=
  { huart := 1, rx_buffer := [0xAA, 0x03, 0x07] ++ List.replicate 509 0,
    rx_head := 3, rx_tail := 0, rx_byte := 0x07,
    rx_state := RX_STATE_IDLE, expected_length := 0, received_length := 0,
    frame_data := List.replicate 255 0, frame_length := 0, frame_checksum := 0x55,
    frame_ready := 0 }

/-! ## Ring buffer lemmas -/

theorem ringTake_length (buf : List Nat) (n t : Nat) : (ringTake buf n t).length = n := by
  induction n generalizing t with
  | zero => rfl
  | succ n ih => simp [ringTake, ih]

theorem ringTake_set_away (buf : List Nat) (h b : Nat) :
    ∀ (n t : Nat), t < RX_BUFFER_SIZE → (∀ i, i < n → (t + i) % RX_BUFFER_SIZE ≠ h) →
      ringTake (buf.set h b) n t = ringTake buf n t := by
  intro n
  induction n with
  | zero => intro t _ _; rfl
  | succ n ih =>
    intro t ht hne
    have h0 : t ≠ h := by
      have := hne 0 (Nat.succ_pos n)
      simp only [Nat.add_zero] at this
      rwa [Nat.mod_eq_of_lt ht] at this
    have hrec : ringTake (buf.set h b) n ((t + 1) % RX_BUFFER_SIZE)
        = ringTake buf n ((t + 1) % RX_BUFFER_SIZE) := by
      apply ih _ (Nat.mod_lt _ (by decide))
      intro i hi
      have := hne (i + 1) (Nat.succ_lt_succ hi)
      intro hc
      apply this
      rw [← hc]
      simp only [RX_BUFFER_SIZE]
      omega
    simp only [ringTake, hrec]
    congr 1
    simp [List.getD_eq_getElem?_getD, List.getElem?_set_ne (Ne.symm h0)]

theorem ringTake_succ_last (buf : List Nat) :
    ∀ (n t : Nat), t < RX_BUFFER_SIZE → ringTake buf (n + 1) t
      = ringTake buf n t ++ [buf.getD ((t + n) % RX_BUFFER_SIZE) 0] := by
  intro n
  induction n with
  | zero =>
    intro t ht
    simp [ringTake, Nat.mod_eq_of_lt ht]
  | succ n ih =>
    intro t _
    have hlt := Nat.mod_lt (t + 1) (show 0 < RX_BUFFER_SIZE by decide)
    rw [ringTake, ih _ hlt]
    simp only [ringTake, List.cons_append]
    have : ((t + 1) % RX_BUFFER_SIZE + n) % RX_BUFFER_SIZE
        = (t + (n + 1)) % RX_BUFFER_SIZE := by
      simp only [RX_BUFFER_SIZE]; omega
    rw [this]

theorem getD_set_self (buf : List Nat) (h b : Nat) (hh : h < buf.length) :
    (buf.set h b).getD h 0 = b := by
  simp [List.getD_eq_getElem?_getD, List.getElem?_set_self, hh]

theorem lastN_of_length_le (k : Nat) (l : List Nat) (h : l.length ≤ k) : lastN k l = l := by
  unfold lastN
  rw [Nat.sub_eq_zero_of_le h, List.drop_zero]

theorem lastN_cons_of_length (k : Nat) (x : Nat) (l : List Nat) (h : l.length = k) :
    lastN k (x :: l) = l := by
  unfold lastN
  simp [h]

/-- Effect of `buffer_write` on the ring: it stays well formed and its unread bytes
become the last `RX_BUFFER_SIZE - 1` of the old unread bytes followed by the new byte. -/
theorem buffer_write_contents (s : SerialProtocol_t) (b : Nat) (hs : RingOK s) :
    RingOK (buffer_write s b) ∧
      ringContents (buffer_write s b)
        = lastN (RX_BUFFER_SIZE - 1) (ringContents s ++ [b]) := by
  obtain ⟨hlen, hhead, htail⟩ := hs
  simp only [RX_BUFFER_SIZE] at hlen hhead htail
  by_cases hfull : (s.rx_head + 1) % RX_BUFFER_SIZE = s.rx_tail
  · -- the write catches up with the reader: the oldest byte is dropped
    have hw : buffer_write s b =
        { s with rx_buffer := s.rx_buffer.set s.rx_head b
                 rx_head := (s.rx_head + 1) % RX_BUFFER_SIZE
                 rx_tail := (s.rx_tail + 1) % RX_BUFFER_SIZE } := by
      simp [buffer_write, hfull]
    rw [hw]
    simp only [RX_BUFFER_SIZE] at hfull
    refine ⟨⟨by simpa using hlen, Nat.mod_lt _ (by decide), Nat.mod_lt _ (by decide)⟩, ?_⟩
    have hc : ringCount s = 510 + 1 := by
      simp only [ringCount, RX_BUFFER_SIZE]; omega
    have hc2 : ringCount { s with rx_buffer := s.rx_buffer.set s.rx_head b
                                  rx_head := (s.rx_head + 1) % RX_BUFFER_SIZE
                                  rx_tail := (s.rx_tail + 1) % RX_BUFFER_SIZE } = 510 + 1 := by
      simp only [ringCount, RX_BUFFER_SIZE]; omega
    simp only [ringContents, hc, hc2]
    have ht2 : (s.rx_tail + 1) % RX_BUFFER_SIZE < RX_BUFFER_SIZE := Nat.mod_lt _ (by decide)
    rw [ringTake_succ_last _ _ _ ht2]
    rw [ringTake_set_away _ _ _ _ _ ht2]
    · have hidx : ((s.rx_tail + 1) % RX_BUFFER_SIZE + 510) % RX_BUFFER_SIZE = s.rx_head := by
        simp only [RX_BUFFER_SIZE]; omega
      rw [hidx, getD_set_self _ _ _ (by omega)]
      have hold : ringTake s.rx_buffer (510 + 1) s.rx_tail
          = s.rx_buffer.getD s.rx_tail 0
              :: ringTake s.rx_buffer 510 ((s.rx_tail + 1) % RX_BUFFER_SIZE) := rfl
      rw [hold, List.cons_append, lastN_cons_of_length]
      simp [ringTake_length]
    · intro i hi
      simp only [RX_BUFFER_SIZE]; omega
  · -- room left
    have hw : buffer_write s b =
        { s with rx_buffer := s.rx_buffer.set s.rx_head b
                 rx_head := (s.rx_head + 1) % RX_BUFFER_SIZE } := by
      simp [buffer_write, hfull]
    rw [hw]
    simp only [RX_BUFFER_SIZE] at hfull
    refine ⟨⟨by simpa using hlen, Nat.mod_lt _ (by decide), htail⟩, ?_⟩
    have hc2 : ringCount { s with rx_buffer := s.rx_buffer.set s.rx_head b
                                  rx_head := (s.rx_head + 1) % RX_BUFFER_SIZE }
        = ringCount s + 1 := by
      simp only [ringCount, RX_BUFFER_SIZE]; omega
    have hc : ringCount s < 511 := by
      simp only [ringCount, RX_BUFFER_SIZE]; omega
    simp only [ringContents, hc2]
    rw [ringTake_succ_last _ _ _ htail]
    rw [ringTake_set_away _ _ _ _ _ htail]
    · have hidx : (s.rx_tail + ringCount s) % RX_BUFFER_SIZE = s.rx_head := by
        simp only [ringCount, RX_BUFFER_SIZE]; omega
      rw [hidx, getD_set_self _ _ _ (by omega)]
      rw [lastN_of_length_le]
      simp [ringTake_length]; omega
    · intro i hi
      simp only [ringCount, RX_BUFFER_SIZE] at hi ⊢; omega

theorem lastN_lastN_append (k : Nat) (l m : List Nat) :
    lastN k (lastN k l ++ m) = lastN k (l ++ m) := by
  by_cases h : l.length ≤ k
  · rw [lastN_of_length_le k l h]
  · have hk : k < l.length := Nat.lt_of_not_le h
    unfold lastN
    have h1 : (List.drop (l.length - k) l).length = k := by
      rw [List.length_drop]; omega
    rw [List.length_append, h1, List.length_append]
    have h2 : k + m.length - k = m.length := by omega
    have e : List.drop (l.length - k) l ++ m = List.drop (l.length - k) (l ++ m) :=
      (List.drop_append_of_le_length (by omega)).symm
    rw [h2, e, List.drop_drop]
    congr 1
    omega

theorem ringOK_init (p0 : SerialProtocol_t) (h : Nat) : RingOK (SerialProtocol_Init p0 h) :=
  ⟨by simp [SerialProtocol_Init], by simp [SerialProtocol_Init], by simp [SerialProtocol_Init]⟩

theorem ringContents_init (p0 : SerialProtocol_t) (h : Nat) :
    ringContents (SerialProtocol_Init p0 h) = [] := by
  have hc : ringCount (SerialProtocol_Init p0 h) = 0 := by
    simp [ringCount, SerialProtocol_Init]
  rw [ringContents, hc]
  rfl

/-- Effect of a run of writes on the ring. -/
theorem writeAll_contents (bytes : List Nat) :
    ∀ s : SerialProtocol_t, RingOK s →
      RingOK (writeAll s bytes) ∧
        ringContents (writeAll s bytes)
          = lastN (RX_BUFFER_SIZE - 1) (ringContents s ++ bytes) := by
  induction bytes with
  | nil =>
    intro s hs
    refine ⟨hs, ?_⟩
    simp only [writeAll, List.foldl_nil, List.append_nil]
    rw [lastN_of_length_le]
    have h1 := hs.head
    have h2 := hs.tail
    rw [ringContents, ringTake_length]
    simp only [ringCount, RX_BUFFER_SIZE] at h1 h2 ⊢
    omega
  | cons b rest ih =>
    intro s hs
    obtain ⟨h1, h2⟩ := buffer_write_contents s b hs
    obtain ⟨h3, h4⟩ := ih (buffer_write s b) h1
    have hw : writeAll s (b :: rest) = writeAll (buffer_write s b) rest := rfl
    rw [hw]
    refine ⟨h3, ?_⟩
    rw [h4, h2, lastN_lastN_append]
    simp

/-! The writer touches nothing but the ring. -/

theorem buffer_write_fields (s : SerialProtocol_t) (b : Nat) :
    (buffer_write s b).rx_state = s.rx_state ∧
    (buffer_write s b).expected_length = s.expected_length ∧
    (buffer_write s b).received_length = s.received_length ∧
    (buffer_write s b).frame_data = s.frame_data ∧
    (buffer_write s b).frame_length = s.frame_length ∧
    (buffer_write s b).frame_checksum = s.frame_checksum ∧
    (buffer_write s b).frame_ready = s.frame_ready ∧
    (buffer_write s b).huart = s.huart ∧
    (buffer_write s b).rx_byte = s.rx_byte := by
  by_cases h : (s.rx_head + 1) % RX_BUFFER_SIZE = s.rx_tail <;> simp [buffer_write, h]

theorem writeAll_fields (bytes : List Nat) :
    ∀ s : SerialProtocol_t,
    (writeAll s bytes).rx_state = s.rx_state ∧
    (writeAll s bytes).expected_length = s.expected_length ∧
    (writeAll s bytes).received_length = s.received_length ∧
    (writeAll s bytes).frame_data = s.frame_data ∧
    (writeAll s bytes).frame_length = s.frame_length ∧
    (writeAll s bytes).frame_checksum = s.frame_checksum ∧
    (writeAll s bytes).frame_ready = s.frame_ready ∧
    (writeAll s bytes).huart = s.huart ∧
    (writeAll s bytes).rx_byte = s.rx_byte := by
  induction bytes with
  | nil => intro s; simp [writeAll]
  | cons b rest ih =>
    intro s
    have hw : writeAll s (b :: rest) = writeAll (buffer_write s b) rest := rfl
    rw [hw]
    obtain ⟨a1, a2, a3, a4, a5, a6, a7, a8, a9⟩ := ih (buffer_write s b)
    obtain ⟨b1, b2, b3, b4, b5, b6, b7, b8, b9⟩ := buffer_write_fields s b
    exact ⟨a1.trans b1, a2.trans b2, a3.trans b3, a4.trans b4, a5.trans b5, a6.trans b6,
      a7.trans b7, a8.trans b8, a9.trans b9⟩

/-! The reader. -/

theorem ringCount_eq_zero_iff (s : SerialProtocol_t) (hs : RingOK s) :
    ringCount s = 0 ↔ s.rx_head = s.rx_tail := by
  have := hs.head
  have := hs.tail
  simp only [ringCount, RX_BUFFER_SIZE] at *
  omega

theorem ringContents_eq_nil_iff (s : SerialProtocol_t) (hs : RingOK s) :
    ringContents s = [] ↔ s.rx_head = s.rx_tail := by
  rw [← ringCount_eq_zero_iff s hs, ← List.length_eq_zero]
  simp [ringContents, ringTake_length]

theorem buffer_read_empty (s : SerialProtocol_t) (x : Nat) (h : s.rx_head = s.rx_tail) :
    buffer_read s x = (0, x, s) := by
  simp [buffer_read, h]

theorem buffer_read_cons (s : SerialProtocol_t) (x b : Nat) (rest : List Nat)
    (hs : RingOK s) (hc : ringContents s = b :: rest) :
    buffer_read s x = (1, b, popTail s) ∧ RingOK (popTail s) ∧
      ringContents (popTail s) = rest ∧ s.rx_head ≠ s.rx_tail := by
  have hne : s.rx_head ≠ s.rx_tail := by
    intro h
    rw [(ringContents_eq_nil_iff s hs).2 h] at hc
    exact List.noConfusion hc
  have hhead := hs.head
  have htail := hs.tail
  obtain ⟨n, hn⟩ : ∃ n, ringCount s = n + 1 := by
    have : ringCount s ≠ 0 := fun h => hne ((ringCount_eq_zero_iff s hs).1 h)
    exact ⟨ringCount s - 1, by omega⟩
  have hn2 : ringCount (popTail s) = n := by
    simp only [ringCount, popTail, RX_BUFFER_SIZE] at *
    omega
  simp only [ringContents, hn, ringTake, List.cons.injEq] at hc
  refine ⟨?_, ⟨hs.len, hs.head, Nat.mod_lt _ (by decide)⟩, ?_, hne⟩
  · rw [← hc.1]
    simp [buffer_read, hne, popTail]
  · simp only [ringContents, hn2]
    exact hc.2

/-- Reading `k` bytes out of a well-formed ring that holds at least `k`. -/
theorem readMany_contents :
    ∀ (k : Nat) (s : SerialProtocol_t) (x : Nat), RingOK s → k ≤ (ringContents s).length →
      readMany k s x = ((ringContents s).take k).map (fun b => (1, b)) ∧
      RingOK (readState k s x).2 ∧
      ringContents (readState k s x).2 = (ringContents s).drop k := by
  intro k
  induction k with
  | zero =>
    intro s x hs _
    exact ⟨rfl, hs, rfl⟩
  | succ k ih =>
    intro s x hs hk
    cases hc : ringContents s with
    | nil => rw [hc] at hk; simp at hk
    | cons b rest =>
      obtain ⟨hr, hok, hrest, _⟩ := buffer_read_cons s x b rest hs hc
      have hk2 : k ≤ (ringContents (popTail s)).length := by
        rw [hrest]; rw [hc] at hk; simpa using hk
      obtain ⟨i1, i2, i3⟩ := ih (popTail s) b hok hk2
      have e1 : readMany (k + 1) s x = (1, b) :: readMany k (popTail s) b := by
        simp [readMany, hr]
      have e2 : readState (k + 1) s x = readState k (popTail s) b := by
        simp [readState, hr]
      rw [e1, e2, i1, hrest]
      refine ⟨by simp, i2, ?_⟩
      rw [i3, hrest]
      simp

theorem buffer_available_ne_zero_iff (s : SerialProtocol_t) :
    buffer_available s ≠ 0 ↔ s.rx_head ≠ s.rx_tail := by
  by_cases h : s.rx_head = s.rx_tail <;> simp [buffer_available, h]

/-! ## The parser only sees the parser fields -/

theorem rxStep_withTail (s : SerialProtocol_t) (t b : Nat) :
    rxStep (withTail s t) b = ((rxStep s b).1, withTail (rxStep s b).2 t) := by
  rcases s with ⟨hu, buf, hd, tl, rb, st, el, rl, fd, fl, fc, fr⟩
  cases st <;> simp only [rxStep, withTail] <;> (try split_ifs) <;> rfl

theorem rxStep_ring (s : SerialProtocol_t) (b : Nat) :
    (rxStep s b).2.rx_buffer = s.rx_buffer ∧ (rxStep s b).2.rx_head = s.rx_head ∧
      (rxStep s b).2.rx_tail = s.rx_tail := by
  rcases s with ⟨hu, buf, hd, tl, rb, st, el, rl, fd, fl, fc, fr⟩
  cases st <;> unfold rxStep <;> dsimp only <;> (try split_ifs) <;> exact ⟨rfl, rfl, rfl⟩

theorem withTail_withTail (s : SerialProtocol_t) (t u : Nat) :
    withTail (withTail s t) u = withTail s u := rfl

theorem withTail_self (s : SerialProtocol_t) : withTail s s.rx_tail = s := rfl

theorem parse_withTail (bs : List Nat) :
    ∀ (s : SerialProtocol_t) (t : Nat),
      parse bs (withTail s t) = ((parse bs s).1, withTail (parse bs s).2.1 t, (parse bs s).2.2) := by
  induction bs with
  | nil => intro s t; rfl
  | cons b rest ih =>
    intro s t
    simp only [parse, rxStep_withTail]
    rcases hr : rxStep s b with ⟨_ | r, s1⟩
    · simp only [ih]
    · rfl

theorem parse_ring (bs : List Nat) :
    ∀ s : SerialProtocol_t,
      (parse bs s).2.1.rx_buffer = s.rx_buffer ∧ (parse bs s).2.1.rx_head = s.rx_head ∧
        (parse bs s).2.1.rx_tail = s.rx_tail := by
  induction bs with
  | nil => intro s; exact ⟨rfl, rfl, rfl⟩
  | cons b rest ih =>
    intro s
    have h := rxStep_ring s b
    simp only [parse]
    rcases hr : rxStep s b with ⟨_ | r, s1⟩
    · rw [hr] at h
      obtain ⟨a1, a2, a3⟩ := ih s1
      exact ⟨a1.trans h.1, a2.trans h.2.1, a3.trans h.2.2⟩
    · rw [hr] at h
      exact h

theorem parse_rest_length (bs : List Nat) :
    ∀ s : SerialProtocol_t, (parse bs s).2.2.length ≤ bs.length := by
  induction bs with
  | nil => intro s; simp [parse]
  | cons b rest ih =>
    intro s
    simp only [parse]
    rcases hr : rxStep s b with ⟨_ | r, s1⟩
    · have := ih s1
      simp only [List.length_cons]
      omega
    · simp

theorem ringContents_congr (s s1 : SerialProtocol_t) (hb : s1.rx_buffer = s.rx_buffer)
    (hh : s1.rx_head = s.rx_head) (ht : s1.rx_tail = s.rx_tail) :
    ringContents s1 = ringContents s ∧ (RingOK s → RingOK s1) := by
  refine ⟨?_, fun h => ⟨hb ▸ h.len, hh ▸ h.head, ht ▸ h.tail⟩⟩
  simp only [ringContents, ringCount, hb, hh, ht]

/-- The loop of `SerialProtocol_Process` on a well-formed ring is the state machine run over
the unread bytes: same return value, same parser fields, and the read index advanced by
the number of bytes consumed. Any budget above the number of unread bytes is enough. -/
theorem processLoop_eq_parse (bs : List Nat) :
    ∀ (s : SerialProtocol_t) (x fuel : Nat), RingOK s → ringContents s = bs →
      bs.length < fuel →
      processLoop fuel s x
          = some ((parse bs s).1,
              withTail (parse bs s).2.1
                ((s.rx_tail + (bs.length - (parse bs s).2.2.length)) % RX_BUFFER_SIZE)) ∧
        RingOK (withTail (parse bs s).2.1
                ((s.rx_tail + (bs.length - (parse bs s).2.2.length)) % RX_BUFFER_SIZE)) ∧
        ringContents (withTail (parse bs s).2.1
                ((s.rx_tail + (bs.length - (parse bs s).2.2.length)) % RX_BUFFER_SIZE))
          = (parse bs s).2.2 := by
  induction bs with
  | nil =>
    intro s x fuel hs hc hf
    obtain ⟨f, rfl⟩ : ∃ f, fuel = f + 1 := ⟨fuel - 1, by simp at hf; omega⟩
    have hht : s.rx_head = s.rx_tail := (ringContents_eq_nil_iff s hs).1 hc
    have hT : (s.rx_tail + 0) % RX_BUFFER_SIZE = s.rx_tail := by
      simpa using Nat.mod_eq_of_lt hs.tail
    simp only [parse, List.length_nil, Nat.sub_self, hT, withTail_self]
    refine ⟨?_, hs, hc⟩
    simp [processLoop, buffer_available, hht]
  | cons b rest ih =>
    intro s x fuel hs hc hf
    obtain ⟨f, rfl⟩ : ∃ f, fuel = f + 1 := ⟨fuel - 1, by simp at hf; omega⟩
    obtain ⟨hr, hok, hrest, hne⟩ := buffer_read_cons s x b rest hs hc
    have hav : buffer_available s ≠ 0 := (buffer_available_ne_zero_iff s).2 hne
    have hpop : popTail s = withTail s ((s.rx_tail + 1) % RX_BUFFER_SIZE) := rfl
    have hloop : processLoop (f + 1) s x
        = match rxStep (popTail s) b with
          | (some r, p2) => some (r, p2)
          | (none, p2) => processLoop f p2 b := by
      simp [processLoop, hav, hr]
    rw [hloop, hpop, rxStep_withTail]
    obtain ⟨g1, g2, g3⟩ := rxStep_ring s b
    rcases hstep : rxStep s b with ⟨_ | r, s1⟩
    · -- the byte is consumed and the loop goes on
      rw [hstep] at g1 g2 g3
      simp only [] at g1 g2 g3
      have hs1 : RingOK (withTail s1 ((s.rx_tail + 1) % RX_BUFFER_SIZE)) ∧
          ringContents (withTail s1 ((s.rx_tail + 1) % RX_BUFFER_SIZE)) = rest := by
        have := ringContents_congr (popTail s) (withTail s1 ((s.rx_tail + 1) % RX_BUFFER_SIZE))
          g1 g2 rfl
        exact ⟨this.2 hok, this.1.trans hrest⟩
      have hlen : rest.length < f := by simp at hf; omega
      obtain ⟨i1, i2, i3⟩ := ih (withTail s1 ((s.rx_tail + 1) % RX_BUFFER_SIZE)) b f
        hs1.1 hs1.2 hlen
      have hle := parse_rest_length rest s1
      have hT : ((s.rx_tail + 1) % RX_BUFFER_SIZE + (rest.length - (parse rest s1).2.2.length))
            % RX_BUFFER_SIZE
          = (s.rx_tail + ((b :: rest).length - (parse rest s1).2.2.length)) % RX_BUFFER_SIZE := by
        simp only [List.length_cons, RX_BUFFER_SIZE]
        omega
      simp only [parse_withTail, withTail_withTail] at i1 i2 i3
      have hwt : (withTail s1 ((s.rx_tail + 1) % RX_BUFFER_SIZE)).rx_tail
          = (s.rx_tail + 1) % RX_BUFFER_SIZE := rfl
      rw [hwt, hT] at i1 i2 i3
      simp only [parse, hstep]
      exact ⟨i1, i2, i3⟩
    · -- the byte completes a frame
      rw [hstep] at g1 g2 g3
      simp only [] at g1 g2 g3
      have hT : (s.rx_tail + ((b :: rest).length - rest.length)) % RX_BUFFER_SIZE
          = (s.rx_tail + 1) % RX_BUFFER_SIZE := by
        simp
      simp only [parse, hstep, hT]
      have := ringContents_congr (popTail s) (withTail s1 ((s.rx_tail + 1) % RX_BUFFER_SIZE))
        g1 g2 rfl
      exact ⟨trivial, this.2 hok, this.1.trans hrest⟩

/-! ## Checksum and copy loops -/

theorem checksumLoop_eq (data : List Nat) (n : Nat) :
    checksumLoop data n = (data.take n).sum % 65536 := by
  induction n with
  | zero => simp [checksumLoop]
  | succ n ih =>
    rw [checksumLoop, ih, List.take_succ, List.sum_append]
    cases h : data[n]? <;> simp [List.getD_eq_getElem?_getD, h]

theorem calculate_checksum_eq (data : List Nat) (n : Nat) :
    calculate_checksum data n = (data.take n).sum % 256 := by
  unfold calculate_checksum
  rw [checksumLoop_eq]
  have h : (255 : Nat) = 2 ^ 8 - 1 := by norm_num
  rw [show (0xFF : Nat) = 2 ^ 8 - 1 by norm_num, Nat.and_pow_two_sub_one_eq_mod]
  omega

theorem writeCells_eq (q : List Nat) :
    ∀ (fd : List Nat) (r : Nat), r + q.length ≤ fd.length →
      writeCells fd r q = fd.take r ++ q ++ fd.drop (r + q.length) := by
  induction q with
  | nil => intro fd r _; simp [writeCells]
  | cons b q ih =>
    intro fd r h
    simp only [List.length_cons] at h
    rw [writeCells, ih _ _ (by simp; omega)]
    have h1 : (fd.set r b).take (r + 1) = fd.take r ++ [b] := by
      have hr : r < fd.length := by omega
      have hx : (fd.take r).length = r := by simp; omega
      rw [List.set_eq_take_append_cons_drop, if_pos hr]
      rw [show fd.take r ++ b :: fd.drop (r + 1) = (fd.take r ++ [b]) ++ fd.drop (r + 1) by simp]
      exact List.take_left' (by simp; omega)
    have h2 : (fd.set r b).drop (r + 1 + q.length) = fd.drop (r + (q.length + 1)) := by
      rw [List.drop_set_of_lt _ _ (by omega)]
      congr 1; omega
    rw [h1, h2]
    simp

theorem getCopyLoop_eq (fd : List Nat) :
    ∀ (n : Nat) (data : List Nat), n ≤ fd.length → n ≤ data.length →
      getCopyLoop fd n data = fd.take n ++ data.drop n := by
  intro n
  induction n with
  | zero => intro data _ _; simp [getCopyLoop]
  | succ n ih =>
    intro data h1 h2
    rw [getCopyLoop, ih data (by omega) (by omega)]
    have hl : (fd.take n).length = n := by simp; omega
    rw [List.set_append_right _ _ (by omega), hl, Nat.sub_self, List.take_succ]
    have hd : data.drop n = data[n] :: data.drop (n + 1) := List.drop_eq_getElem_cons (by omega)
    have hf : fd.getD n 0 = fd[n] := by
      simp [List.getD_eq_getElem?_getD, List.getElem?_eq_getElem (show n < fd.length by omega)]
    rw [hd, List.set_cons_zero, hf, List.getElem?_eq_getElem (show n < fd.length by omega)]
    simp only [Option.toList, List.append_assoc, List.singleton_append]

/-! ## The state machine on byte lists -/

theorem rxStep_idle_other (s : SerialProtocol_t) (b : Nat) (hst : s.rx_state = RX_STATE_IDLE)
    (hb : b ≠ FRAME_HEAD) : rxStep s b = (none, s) := by
  simp [rxStep, hst, hb]

theorem rxStep_idle_head (s : SerialProtocol_t) (hst : s.rx_state = RX_STATE_IDLE) :
    rxStep s FRAME_HEAD
      = (none, { s with rx_state := RX_STATE_HEAD_FOUND, received_length := 0 }) := by
  simp [rxStep, hst]

theorem rxStep_head_found (s : SerialProtocol_t) (b : Nat)
    (hst : s.rx_state = RX_STATE_HEAD_FOUND) (hb : b ≤ MAX_DATA_LENGTH) :
    rxStep s b
      = (none, { s with expected_length := b, rx_state := RX_STATE_LENGTH_RECEIVED }) := by
  simp [rxStep, hst, hb]

theorem rxStep_payload_more (s : SerialProtocol_t) (b : Nat)
    (hst : s.rx_state = RX_STATE_LENGTH_RECEIVED)
    (hlt : s.received_length + 1 < s.expected_length) (hmax : s.expected_length ≤ MAX_DATA_LENGTH) :
    rxStep s b
      = (none, { s with frame_data := s.frame_data.set s.received_length b
                        received_length := s.received_length + 1 }) := by
  have h0 : s.expected_length ≠ 0 := by omega
  have hm : (s.received_length + 1) % 256 = s.received_length + 1 := by
    simp only [MAX_DATA_LENGTH] at hmax; omega
  have hn : ¬ (s.received_length + 1 ≥ s.expected_length) := by omega
  simp [rxStep, hst, h0, hm, hn]

theorem rxStep_payload_last (s : SerialProtocol_t) (b : Nat)
    (hst : s.rx_state = RX_STATE_LENGTH_RECEIVED)
    (heq : s.received_length + 1 = s.expected_length) (hmax : s.expected_length ≤ MAX_DATA_LENGTH) :
    rxStep s b
      = (none, { s with frame_data := s.frame_data.set s.received_length b
                        received_length := s.expected_length
                        rx_state := RX_STATE_DATA_RECEIVING }) := by
  have h0 : s.expected_length ≠ 0 := by omega
  have hm : (s.received_length + 1) % 256 = s.expected_length := by
    simp only [MAX_DATA_LENGTH] at hmax; omega
  simp [rxStep, hst, h0, hm]

theorem parse_cons_none (b : Nat) (rest : List Nat) (s s1 : SerialProtocol_t)
    (h : rxStep s b = (none, s1)) : parse (b :: rest) s = parse rest s1 := by
  simp only [parse, h]

theorem parse_cons_some (b : Nat) (rest : List Nat) (s s1 : SerialProtocol_t) (r : Int)
    (h : rxStep s b = (some r, s1)) : parse (b :: rest) s = (r, s1, rest) := by
  simp only [parse, h]

theorem parse_idle_garbage (g rest : List Nat) (hg : ∀ b ∈ g, b ≠ FRAME_HEAD) :
    ∀ s : SerialProtocol_t, s.rx_state = RX_STATE_IDLE → parse (g ++ rest) s = parse rest s := by
  induction g with
  | nil => intro s _; rfl
  | cons b g ih =>
    intro s hst
    have hb : b ≠ FRAME_HEAD := hg b (by simp)
    rw [List.cons_append, parse_cons_none b _ s s (rxStep_idle_other s b hst hb)]
    exact ih (fun c hc => hg c (by simp [hc])) s hst

theorem parse_payload (rest : List Nat) (q : List Nat) :
    ∀ s : SerialProtocol_t, s.rx_state = RX_STATE_LENGTH_RECEIVED → q ≠ [] →
      s.received_length + q.length = s.expected_length →
      s.expected_length ≤ MAX_DATA_LENGTH →
      parse (q ++ rest) s
        = parse rest { s with rx_state := RX_STATE_DATA_RECEIVING
                              received_length := s.expected_length
                              frame_data := writeCells s.frame_data s.received_length q } := by
  induction q with
  | nil => intro s _ h; exact absurd rfl h
  | cons b q ih =>
    intro s hst _ hlen hmax
    simp only [List.length_cons] at hlen
    by_cases hq : q = []
    · subst hq
      simp only [List.length_nil] at hlen
      rw [List.cons_append, List.nil_append,
        parse_cons_none b _ s _ (rxStep_payload_last s b hst (by omega) hmax)]
      rfl
    · have hpos : 0 < q.length := List.length_pos.2 hq
      rw [List.cons_append,
        parse_cons_none b _ s _ (rxStep_payload_more s b hst (by omega) hmax)]
      have hi := ih { s with frame_data := s.frame_data.set s.received_length b
                             received_length := s.received_length + 1 }
        hst hq (show s.received_length + 1 + q.length = s.expected_length by omega) hmax
      exact hi.trans rfl

theorem rxStep_checksum_ok (s : SerialProtocol_t)
    (hst : s.rx_state = RX_STATE_DATA_RECEIVING)
    (heq : s.received_length = s.expected_length) :
    rxStep s ((s.expected_length + (s.frame_data.take s.expected_length).sum) % 256)
      = (none, { s with
          frame_checksum := (s.expected_length + (s.frame_data.take s.expected_length).sum) % 256
          received_length := (s.received_length + 1) % 256 }) := by
  have hc : ((calculate_checksum [s.expected_length] 1
        + calculate_checksum s.frame_data s.expected_length) % 256) &&& 0xFF
      = (s.expected_length + (s.frame_data.take s.expected_length).sum) % 256 := by
    rw [show (0xFF : Nat) = 2 ^ 8 - 1 by norm_num, Nat.and_pow_two_sub_one_eq_mod,
      calculate_checksum_eq, calculate_checksum_eq]
    simp
  simp only [rxStep, hst, heq, hc, if_true]

theorem rxStep_tail_ok (s : SerialProtocol_t)
    (hst : s.rx_state = RX_STATE_DATA_RECEIVING)
    (hne : s.received_length ≠ s.expected_length) :
    rxStep s FRAME_TAIL
      = (some 0, { s with frame_length := s.expected_length
                          frame_ready := 1
                          rx_state := RX_STATE_FRAME_COMPLETE }) := by
  simp [rxStep, hst, hne]

theorem writeCells_length (q : List Nat) :
    ∀ (fd : List Nat) (r : Nat), (writeCells fd r q).length = fd.length := by
  induction q with
  | nil => intro fd r; rfl
  | cons b q ih => intro fd r; rw [writeCells, ih]; simp

theorem writeCells_take (p fd : List Nat) (h : p.length ≤ fd.length) :
    (writeCells fd 0 p).take p.length = p := by
  rw [writeCells_eq p fd 0 (by omega)]
  simp

/-- A well-formed frame with a non-empty payload, met in Idle, is accepted. -/
theorem parse_frame (p rest : List Nat) (s : SerialProtocol_t)
    (hst : s.rx_state = RX_STATE_IDLE) (hp : p ≠ []) (hlen : p.length ≤ MAX_DATA_LENGTH)
    (hfd : p.length ≤ s.frame_data.length) :
    parse (wireFrame p ++ rest) s = (0, afterFrame s p, rest) := by
  have hw : wireFrame p ++ rest
      = FRAME_HEAD :: p.length :: (p ++ ((p.length + byteSum p) % 256 :: FRAME_TAIL :: rest)) := by
    simp [wireFrame]
  rw [hw, parse_cons_none _ _ s _ (rxStep_idle_head s hst)]
  rw [parse_cons_none _ _ _ _ (rxStep_head_found _ p.length rfl hlen)]
  rw [parse_payload _ p _ rfl hp (by simp) hlen]
  let S3 : SerialProtocol_t :=
    { s with rx_state := RX_STATE_DATA_RECEIVING, expected_length := p.length
             received_length := p.length, frame_data := writeCells s.frame_data 0 p }
  show parse (((p.length + byteSum p) % 256) :: FRAME_TAIL :: rest) S3 = (0, afterFrame s p, rest)
  have hsum : (S3.expected_length + (S3.frame_data.take S3.expected_length).sum) % 256
      = (p.length + byteSum p) % 256 := by
    show (p.length + ((writeCells s.frame_data 0 p).take p.length).sum) % 256 = _
    rw [writeCells_take p _ hfd]
    rfl
  have h4 := rxStep_checksum_ok S3 rfl rfl
  rw [hsum] at h4
  rw [parse_cons_none _ _ _ _ h4]
  have hne : (p.length + 1) % 256 ≠ p.length := by
    simp only [MAX_DATA_LENGTH] at hlen; omega
  rw [parse_cons_some _ _ _ _ _ (rxStep_tail_ok _ rfl hne)]
  rfl

/-! ## `SerialProtocol_Process` and `SerialProtocol_GetReceivedFrame` -/

theorem ringContents_length_lt (s : SerialProtocol_t) :
    (ringContents s).length < RX_BUFFER_SIZE := by
  rw [ringContents, ringTake_length]
  exact Nat.mod_lt _ (by decide)

/-- On a well-formed ring `SerialProtocol_Process` returns, and it returns what the state
machine computes on the unread bytes. -/
theorem process_eq_parse (s : SerialProtocol_t) (hs : RingOK s) :
    SerialProtocol_Process s
        = some ((parse (ringContents s) s).1,
            withTail (parse (ringContents s) s).2.1
              ((s.rx_tail + ((ringContents s).length
                  - (parse (ringContents s) s).2.2.length)) % RX_BUFFER_SIZE)) ∧
      RingOK (withTail (parse (ringContents s) s).2.1
              ((s.rx_tail + ((ringContents s).length
                  - (parse (ringContents s) s).2.2.length)) % RX_BUFFER_SIZE)) ∧
      ringContents (withTail (parse (ringContents s) s).2.1
              ((s.rx_tail + ((ringContents s).length
                  - (parse (ringContents s) s).2.2.length)) % RX_BUFFER_SIZE))
        = (parse (ringContents s) s).2.2 :=
  processLoop_eq_parse (ringContents s) s 0 RX_BUFFER_SIZE hs rfl (ringContents_length_lt s)

/-- From Idle, with optional garbage and then a well-formed frame at the front of the ring,
one call completes that frame and leaves the following bytes in the ring. -/
theorem process_frame (s : SerialProtocol_t) (g p rest : List Nat) (hs : RingOK s)
    (hst : s.rx_state = RX_STATE_IDLE) (hc : ringContents s = g ++ wireFrame p ++ rest)
    (hg : ∀ b ∈ g, b ≠ FRAME_HEAD) (hp : p ≠ []) (hlen : p.length ≤ MAX_DATA_LENGTH)
    (hfd : p.length ≤ s.frame_data.length) :
    ∃ t, SerialProtocol_Process s = some (0, withTail (afterFrame s p) t) ∧
      RingOK (withTail (afterFrame s p) t) ∧
      ringContents (withTail (afterFrame s p) t) = rest := by
  obtain ⟨h1, h2, h3⟩ := process_eq_parse s hs
  have hparse : parse (ringContents s) s = (0, afterFrame s p, rest) := by
    rw [hc, List.append_assoc, parse_idle_garbage g _ hg s hst, parse_frame p rest s hst hp hlen hfd]
  rw [hparse] at h1 h2 h3
  exact ⟨_, h1, h2, h3⟩

theorem get_pending (s : SerialProtocol_t) (data : List Nat) (dl : Nat)
    (h : s.frame_ready ≠ 0) :
    SerialProtocol_GetReceivedFrame s data dl
      = { ret := 0
          protocol := { s with frame_ready := 0, rx_state := RX_STATE_IDLE }
          data := getCopyLoop s.frame_data s.frame_length data
          data_len := s.frame_length } := by
  simp [SerialProtocol_GetReceivedFrame, h]

theorem get_none (s : SerialProtocol_t) (data : List Nat) (dl : Nat)
    (h : s.frame_ready = 0) :
    SerialProtocol_GetReceivedFrame s data dl
      = { ret := -1, protocol := s, data := data, data_len := dl } := by
  simp [SerialProtocol_GetReceivedFrame, h]

/-- Taking the frame out of the inbox right after it was accepted. -/
theorem get_afterFrame (s : SerialProtocol_t) (p : List Nat) (t : Nat) (data : List Nat)
    (dl : Nat) (hfd : p.length ≤ s.frame_data.length) (hdata : p.length ≤ data.length) :
    (SerialProtocol_GetReceivedFrame (withTail (afterFrame s p) t) data dl).ret = 0 ∧
    (SerialProtocol_GetReceivedFrame (withTail (afterFrame s p) t) data dl).data_len = p.length ∧
    (SerialProtocol_GetReceivedFrame (withTail (afterFrame s p) t) data dl).data.take p.length = p ∧
    (SerialProtocol_GetReceivedFrame (withTail (afterFrame s p) t) data dl).protocol
      = { withTail (afterFrame s p) t with frame_ready := 0, rx_state := RX_STATE_IDLE } := by
  have hr : (withTail (afterFrame s p) t).frame_ready ≠ 0 := by
    show (1 : Nat) ≠ 0
    decide
  rw [get_pending _ data dl hr]
  refine ⟨rfl, rfl, ?_, rfl⟩
  show (getCopyLoop (writeCells s.frame_data 0 p) p.length data).take p.length = p
  rw [getCopyLoop_eq _ _ _ (by rw [writeCells_length]; exact hfd) hdata]
  rw [List.take_append_of_le_length (by rw [List.length_take, writeCells_length]; omega)]
  rw [List.take_take, Nat.min_self]
  exact writeCells_take p _ hfd

theorem fresh_written (p0 : SerialProtocol_t) (h : Nat) (bytes : List Nat)
    (hfit : bytes.length ≤ RX_BUFFER_SIZE - 1) :
    RingOK (writeAll (SerialProtocol_Init p0 h) bytes) ∧
    ringContents (writeAll (SerialProtocol_Init p0 h) bytes) = bytes ∧
    (writeAll (SerialProtocol_Init p0 h) bytes).rx_state = RX_STATE_IDLE ∧
    (writeAll (SerialProtocol_Init p0 h) bytes).frame_data.length = MAX_DATA_LENGTH ∧
    (writeAll (SerialProtocol_Init p0 h) bytes).frame_ready = 0 := by
  obtain ⟨h1, h2⟩ := writeAll_contents bytes _ (ringOK_init p0 h)
  obtain ⟨f1, _, _, f4, _, _, f7, _, _⟩ := writeAll_fields bytes (SerialProtocol_Init p0 h)
  refine ⟨h1, ?_, f1, ?_, f7⟩
  · rw [h2, ringContents_init, List.nil_append, lastN_of_length_le _ _ hfit]
  · rw [f4]; simp [SerialProtocol_Init]

/-! ## Ring buffer claims -/

/-- Claim C6. Ring buffer FIFO: after writing `n <= 511` bytes to a freshly initialised
protocol, `n` successive `buffer_read` calls succeed and return the bytes in the order
written; the next `buffer_read` returns 0 and leaves the output byte and the structure
(hence both indices) unchanged; and `buffer_available` is true after `k` reads exactly
while `k < n`. -/
theorem C6_ring_fifo (p0 : SerialProtocol_t) (h : Nat) (bytes : List Nat) (x : Nat)
    (hn : bytes.length ≤ RX_BUFFER_SIZE - 1) :
    readMany bytes.length (writeAll (SerialProtocol_Init p0 h) bytes) x
        = bytes.map (fun b => (1, b)) ∧
      (∀ y, buffer_read (readState bytes.length (writeAll (SerialProtocol_Init p0 h) bytes) x).2 y
        = (0, y, (readState bytes.length (writeAll (SerialProtocol_Init p0 h) bytes) x).2)) ∧
      (∀ k, k ≤ bytes.length →
        (buffer_available (readState k (writeAll (SerialProtocol_Init p0 h) bytes) x).2 ≠ 0
          ↔ k < bytes.length)) := by
  obtain ⟨k1, k2, _⟩ := fresh_written p0 h bytes hn
  refine ⟨?_, ?_, ?_⟩
  · obtain ⟨r1, _, _⟩ := readMany_contents bytes.length _ x k1 (by rw [k2])
    rw [r1, k2, List.take_length]
  · intro y
    obtain ⟨_, r2, r3⟩ := readMany_contents bytes.length _ x k1 (by rw [k2])
    rw [k2, List.drop_length] at r3
    exact buffer_read_empty _ y ((ringContents_eq_nil_iff _ r2).1 r3)
  · intro k hk
    obtain ⟨_, r2, r3⟩ := readMany_contents k _ x k1 (by rw [k2]; exact hk)
    rw [k2] at r3
    rw [buffer_available_ne_zero_iff, Ne, ← ringContents_eq_nil_iff _ r2, r3]
    simp

theorem C6_ring_fifo_witness :
    [0x10, 0xAA, 0x10].length ≤ RX_BUFFER_SIZE - 1 ∧
      readMany 3 (writeAll (SerialProtocol_Init staleProtocol 1) [0x10, 0xAA, 0x10]) 0
        = [(1, 0x10), (1, 0xAA), (1, 0x10)] :=
  ⟨by decide, (C6_ring_fifo staleProtocol 1 [0x10, 0xAA, 0x10] 0 (by decide)).1⟩

/-- Claim C7. Ring buffer overwrite-oldest: after writing `n >= 511` bytes to a freshly
initialised protocol without reading, `buffer_available` is true, 511 successive
`buffer_read` calls succeed and return exactly the last 511 bytes written, in order, and
the next `buffer_read` reports empty. -/
theorem C7_ring_overwrite_oldest (p0 : SerialProtocol_t) (h : Nat) (bytes : List Nat) (x : Nat)
    (hn : RX_BUFFER_SIZE - 1 ≤ bytes.length) :
    buffer_available (writeAll (SerialProtocol_Init p0 h) bytes) ≠ 0 ∧
      readMany (RX_BUFFER_SIZE - 1) (writeAll (SerialProtocol_Init p0 h) bytes) x
        = (lastN (RX_BUFFER_SIZE - 1) bytes).map (fun b => (1, b)) ∧
      (∀ y, buffer_read
          (readState (RX_BUFFER_SIZE - 1) (writeAll (SerialProtocol_Init p0 h) bytes) x).2 y
        = (0, y,
          (readState (RX_BUFFER_SIZE - 1) (writeAll (SerialProtocol_Init p0 h) bytes) x).2)) := by
  obtain ⟨k1, k2⟩ := writeAll_contents bytes _ (ringOK_init p0 h)
  rw [ringContents_init, List.nil_append] at k2
  have hlen : (lastN (RX_BUFFER_SIZE - 1) bytes).length = RX_BUFFER_SIZE - 1 := by
    simp only [lastN, List.length_drop]
    omega
  obtain ⟨r1, r2, r3⟩ := readMany_contents (RX_BUFFER_SIZE - 1) _ x k1 (by rw [k2, hlen])
  refine ⟨?_, ?_, ?_⟩
  · rw [buffer_available_ne_zero_iff, Ne, ← ringContents_eq_nil_iff _ k1, k2]
    intro h0
    rw [h0] at hlen
    exact absurd hlen (by decide)
  · rw [r1, k2, List.take_of_length_le (by rw [hlen])]
  · intro y
    rw [k2, List.drop_of_length_le (by rw [hlen])] at r3
    exact buffer_read_empty _ y ((ringContents_eq_nil_iff _ r2).1 r3)

theorem C7_ring_overwrite_oldest_witness :
    RX_BUFFER_SIZE - 1 ≤ (List.replicate 600 0x33).length ∧
      buffer_available (writeAll (SerialProtocol_Init staleProtocol 1) (List.replicate 600 0x33))
        ≠ 0 :=
  ⟨by rw [List.length_replicate]; decide,
    (C7_ring_overwrite_oldest staleProtocol 1 (List.replicate 600 0x33) 0
      (by rw [List.length_replicate]; decide)).1⟩

/-! ## Frame reception claims -/

/-- Garbage without a HEAD byte and then one well-formed frame, written to a freshly
initialised protocol: one `SerialProtocol_Process` call accepts the frame and
`SerialProtocol_GetReceivedFrame` delivers the payload. -/
theorem process_frame_fresh (p0 : SerialProtocol_t) (h : Nat) (g p data : List Nat)
    (dl : Nat) (hg : ∀ b ∈ g, b ≠ FRAME_HEAD) (hp1 : 1 ≤ p.length)
    (hp2 : p.length ≤ MAX_DATA_LENGTH)
    (hfit : g.length + p.length + 4 ≤ RX_BUFFER_SIZE - 1)
    (hdata : p.length ≤ data.length) :
    ∃ s1, SerialProtocol_Process (writeAll (SerialProtocol_Init p0 h) (g ++ wireFrame p))
        = some (0, s1) ∧
      (SerialProtocol_GetReceivedFrame s1 data dl).ret = 0 ∧
      (SerialProtocol_GetReceivedFrame s1 data dl).data_len = p.length ∧
      (SerialProtocol_GetReceivedFrame s1 data dl).data.take p.length = p := by
  have hl : (g ++ wireFrame p).length ≤ RX_BUFFER_SIZE - 1 := by
    simp only [RX_BUFFER_SIZE] at hfit ⊢
    simp [wireFrame]; omega
  obtain ⟨k1, k2, k3, k4, _⟩ := fresh_written p0 h (g ++ wireFrame p) hl
  have hpne : p ≠ [] := by
    intro h0; rw [h0] at hp1; simp at hp1
  obtain ⟨t, e1, _, _⟩ := process_frame _ g p [] k1 k3 (by rw [k2]; simp) hg hpne hp2
    (by rw [k4]; exact hp2)
  obtain ⟨a1, a2, a3, _⟩ := get_afterFrame (writeAll (SerialProtocol_Init p0 h) (g ++ wireFrame p))
    p t data dl (by rw [k4]; exact hp2) hdata
  exact ⟨_, e1, a1, a2, a3⟩


/-- Claim C5. A well-formed frame with a non-empty payload, written after any garbage that
holds no HEAD byte into a freshly initialised protocol (everything fitting in the 511
usable bytes of the ring), is completed by one `SerialProtocol_Process` call, which
returns 0, and `SerialProtocol_GetReceivedFrame` then succeeds with the payload length
and the payload. -/
theorem C5_frame_after_garbage (p0 : SerialProtocol_t) (h : Nat) (g p data : List Nat)
    (dl : Nat) (hg : ∀ b ∈ g, b ≠ FRAME_HEAD) (hp1 : 1 ≤ p.length)
    (hp2 : p.length ≤ MAX_DATA_LENGTH)
    (hfit : g.length + p.length + 4 ≤ RX_BUFFER_SIZE - 1)
    (hdata : p.length ≤ data.length) :
    ∃ s1, SerialProtocol_Process (writeAll (SerialProtocol_Init p0 h) (g ++ wireFrame p))
        = some (0, s1) ∧
      (SerialProtocol_GetReceivedFrame s1 data dl).ret = 0 ∧
      (SerialProtocol_GetReceivedFrame s1 data dl).data_len = p.length ∧
      (SerialProtocol_GetReceivedFrame s1 data dl).data.take p.length = p :=
  process_frame_fresh p0 h g p data dl hg hp1 hp2 hfit hdata

theorem C5_frame_after_garbage_witness :
    (∀ b ∈ [0x00, 0xBB, 0x7F], b ≠ FRAME_HEAD) ∧ 1 ≤ [0xAA, 0x05].length ∧
      [0xAA, 0x05].length ≤ MAX_DATA_LENGTH ∧
      [0x00, 0xBB, 0x7F].length + [0xAA, 0x05].length + 4 ≤ RX_BUFFER_SIZE - 1 ∧
      [0xAA, 0x05].length ≤ [0, 0, 0].length ∧
      ∃ s1, SerialProtocol_Process (writeAll (SerialProtocol_Init staleProtocol 1)
            ([0x00, 0xBB, 0x7F] ++ wireFrame [0xAA, 0x05])) = some (0, s1) ∧
        (SerialProtocol_GetReceivedFrame s1 [0, 0, 0] 0).ret = 0 ∧
        (SerialProtocol_GetReceivedFrame s1 [0, 0, 0] 0).data_len = [0xAA, 0x05].length ∧
        (SerialProtocol_GetReceivedFrame s1 [0, 0, 0] 0).data.take [0xAA, 0x05].length
          = [0xAA, 0x05] :=
  ⟨by decide, by decide, by decide, by decide, by decide,
    C5_frame_after_garbage staleProtocol 1 [0x00, 0xBB, 0x7F] [0xAA, 0x05] [0, 0, 0] 0
      (by decide) (by decide) (by decide) (by decide) (by decide)⟩

/-- The structure `SerialProtocol_GetReceivedFrame` leaves behind after a frame was
accepted is back in Idle with the ring untouched. -/
theorem after_get_state (s : SerialProtocol_t) (p rest : List Nat) (t : Nat)
    (data : List Nat) (dl : Nat) (hfd : p.length ≤ s.frame_data.length)
    (hdata : p.length ≤ data.length)
    (hok : RingOK (withTail (afterFrame s p) t))
    (hc : ringContents (withTail (afterFrame s p) t) = rest) :
    RingOK (SerialProtocol_GetReceivedFrame (withTail (afterFrame s p) t) data dl).protocol ∧
    ringContents (SerialProtocol_GetReceivedFrame (withTail (afterFrame s p) t) data dl).protocol
      = rest ∧
    (SerialProtocol_GetReceivedFrame (withTail (afterFrame s p) t) data dl).protocol.rx_state
      = RX_STATE_IDLE ∧
    (SerialProtocol_GetReceivedFrame (withTail (afterFrame s p) t) data dl).protocol.frame_data.length
      = s.frame_data.length := by
  obtain ⟨_, _, _, a4⟩ := get_afterFrame s p t data dl hfd hdata
  rw [a4]
  have := ringContents_congr (withTail (afterFrame s p) t)
    { withTail (afterFrame s p) t with frame_ready := 0, rx_state := RX_STATE_IDLE } rfl rfl rfl
  refine ⟨this.2 hok, this.1.trans hc, rfl, ?_⟩
  show (writeCells s.frame_data 0 p).length = s.frame_data.length
  exact writeCells_length p _ _

/-- Claim C8. Multi-frame backlog: two well-formed frames with non-empty payloads, written
back to back into a freshly initialised protocol and together at most 511 bytes long:
the first `SerialProtocol_Process` returns 0 and `SerialProtocol_GetReceivedFrame`
delivers the first payload; the next `SerialProtocol_Process` returns 0 and
`SerialProtocol_GetReceivedFrame` delivers the second payload; a third
`SerialProtocol_Process` returns 1. -/
theorem C8_two_frame_backlog (p0 : SerialProtocol_t) (h : Nat) (p1 p2 data1 data2 : List Nat)
    (dl1 dl2 : Nat) (h11 : 1 ≤ p1.length) (h12 : p1.length ≤ MAX_DATA_LENGTH)
    (h21 : 1 ≤ p2.length) (h22 : p2.length ≤ MAX_DATA_LENGTH)
    (hfit : (wireFrame p1).length + (wireFrame p2).length ≤ RX_BUFFER_SIZE - 1)
    (hd1 : p1.length ≤ data1.length) (hd2 : p2.length ≤ data2.length) :
    ∃ s1 s2 s3,
      SerialProtocol_Process
          (writeAll (SerialProtocol_Init p0 h) (wireFrame p1 ++ wireFrame p2)) = some (0, s1) ∧
      (SerialProtocol_GetReceivedFrame s1 data1 dl1).ret = 0 ∧
      (SerialProtocol_GetReceivedFrame s1 data1 dl1).data_len = p1.length ∧
      (SerialProtocol_GetReceivedFrame s1 data1 dl1).data.take p1.length = p1 ∧
      SerialProtocol_Process (SerialProtocol_GetReceivedFrame s1 data1 dl1).protocol
        = some (0, s2) ∧
      (SerialProtocol_GetReceivedFrame s2 data2 dl2).ret = 0 ∧
      (SerialProtocol_GetReceivedFrame s2 data2 dl2).data_len = p2.length ∧
      (SerialProtocol_GetReceivedFrame s2 data2 dl2).data.take p2.length = p2 ∧
      SerialProtocol_Process (SerialProtocol_GetReceivedFrame s2 data2 dl2).protocol
        = some (1, s3) := by
  have hl : (wireFrame p1 ++ wireFrame p2).length ≤ RX_BUFFER_SIZE - 1 := by
    rw [List.length_append]; exact hfit
  obtain ⟨k1, k2, k3, k4, _⟩ := fresh_written p0 h (wireFrame p1 ++ wireFrame p2) hl
  have hne1 : p1 ≠ [] := by
    intro h0; rw [h0] at h11; simp at h11
  have hne2 : p2 ≠ [] := by
    intro h0; rw [h0] at h21; simp at h21
  -- first frame
  obtain ⟨t1, e1, ok1, c1⟩ := process_frame _ [] p1 (wireFrame p2) k1 k3 (by rw [k2]; simp)
    (by simp) hne1 h12 (by rw [k4]; exact h12)
  obtain ⟨a1, a2, a3, _⟩ := get_afterFrame _ p1 t1 data1 dl1 (by rw [k4]; exact h12) hd1
  obtain ⟨b1, b2, b3, b4⟩ := after_get_state _ p1 _ t1 data1 dl1 (by rw [k4]; exact h12) hd1
    ok1 c1
  -- second frame
  obtain ⟨t2, e2, ok2, c2⟩ := process_frame _ [] p2 [] b1 b3 (by rw [b2]; simp)
    (by simp) hne2 h22 (by rw [b4, k4]; exact h22)
  obtain ⟨a5, a6, a7, _⟩ := get_afterFrame _ p2 t2 data2 dl2 (by rw [b4, k4]; exact h22) hd2
  obtain ⟨d1, d2, _, _⟩ := after_get_state _ p2 _ t2 data2 dl2 (by rw [b4, k4]; exact h22) hd2
    ok2 c2
  -- nothing left
  obtain ⟨e3, _, _⟩ := process_eq_parse _ d1
  rw [d2] at e3
  exact ⟨_, _, _, e1, a1, a2, a3, e2, a5, a6, a7, e3⟩

theorem C8_two_frame_backlog_witness :
    1 ≤ [0x01, 0x02].length ∧ [0x01, 0x02].length ≤ MAX_DATA_LENGTH ∧
      1 ≤ [0xAA].length ∧ [0xAA].length ≤ MAX_DATA_LENGTH ∧
      (wireFrame [0x01, 0x02]).length + (wireFrame [0xAA]).length ≤ RX_BUFFER_SIZE - 1 ∧
      [0x01, 0x02].length ≤ [0, 0].length ∧ [0xAA].length ≤ [0].length ∧
      ∃ s1 s2 s3,
        SerialProtocol_Process (writeAll (SerialProtocol_Init staleProtocol 1)
            (wireFrame [0x01, 0x02] ++ wireFrame [0xAA])) = some (0, s1) ∧
        (SerialProtocol_GetReceivedFrame s1 [0, 0] 0).ret = 0 ∧
        (SerialProtocol_GetReceivedFrame s1 [0, 0] 0).data_len = [0x01, 0x02].length ∧
        (SerialProtocol_GetReceivedFrame s1 [0, 0] 0).data.take [0x01, 0x02].length
          = [0x01, 0x02] ∧
        SerialProtocol_Process (SerialProtocol_GetReceivedFrame s1 [0, 0] 0).protocol
          = some (0, s2) ∧
        (SerialProtocol_GetReceivedFrame s2 [0] 0).ret = 0 ∧
        (SerialProtocol_GetReceivedFrame s2 [0] 0).data_len = [0xAA].length ∧
        (SerialProtocol_GetReceivedFrame s2 [0] 0).data.take [0xAA].length = [0xAA] ∧
        SerialProtocol_Process (SerialProtocol_GetReceivedFrame s2 [0] 0).protocol
          = some (1, s3) :=
  ⟨by decide, by decide, by decide, by decide, by decide, by decide, by decide,
    C8_two_frame_backlog staleProtocol 1 [0x01, 0x02] [0xAA] [0, 0] [0] 0 0
      (by decide) (by decide) (by decide) (by decide) (by decide) (by decide) (by decide)⟩

/-! ## Reachable states -/

theorem rxStep_some (s s1 : SerialProtocol_t) (b : Nat) (r : Int)
    (h : rxStep s b = (some r, s1)) :
    r = 0 ∧ b = FRAME_TAIL ∧ s1.frame_ready = 1 ∧ s1.rx_state = RX_STATE_FRAME_COMPLETE := by
  rcases s with ⟨hu, buf, hd, tl, rb, st, el, rl, fd, fl, fc, fr⟩
  cases st <;> simp only [rxStep] at h <;> (try split_ifs at h) <;>
    simp only [Prod.mk.injEq, Option.some.injEq, reduceCtorEq, false_and] at h
  obtain ⟨h1, h2⟩ := h
  subst h2
  exact ⟨h1.symm, by assumption, rfl, rfl⟩

theorem rxStep_inv (s : SerialProtocol_t) (b : Nat)
    (h1 : s.frame_data.length = MAX_DATA_LENGTH) (h2 : s.expected_length ≤ MAX_DATA_LENGTH)
    (h3 : s.frame_length ≤ MAX_DATA_LENGTH) :
    (rxStep s b).2.frame_data.length = MAX_DATA_LENGTH ∧
      (rxStep s b).2.expected_length ≤ MAX_DATA_LENGTH ∧
      (rxStep s b).2.frame_length ≤ MAX_DATA_LENGTH := by
  rcases s with ⟨hu, buf, hd, tl, rb, st, el, rl, fd, fl, fc, fr⟩
  simp only at h1 h2 h3
  cases st <;> simp only [rxStep] <;> (try split_ifs) <;> (try dsimp only) <;>
    refine ⟨by simp [h1], ?_, ?_⟩ <;> assumption

theorem parse_inv (bs : List Nat) :
    ∀ s : SerialProtocol_t, s.frame_data.length = MAX_DATA_LENGTH →
      s.expected_length ≤ MAX_DATA_LENGTH → s.frame_length ≤ MAX_DATA_LENGTH →
      (parse bs s).2.1.frame_data.length = MAX_DATA_LENGTH ∧
        (parse bs s).2.1.expected_length ≤ MAX_DATA_LENGTH ∧
        (parse bs s).2.1.frame_length ≤ MAX_DATA_LENGTH := by
  induction bs with
  | nil => intro s h1 h2 h3; exact ⟨h1, h2, h3⟩
  | cons b rest ih =>
    intro s h1 h2 h3
    have hi := rxStep_inv s b h1 h2 h3
    rcases hstep : rxStep s b with ⟨_ | r, s1⟩
    · rw [hstep] at hi
      rw [parse_cons_none b rest s s1 hstep]
      exact ih s1 hi.1 hi.2.1 hi.2.2
    · rw [hstep] at hi
      rw [parse_cons_some b rest s s1 r hstep]
      exact hi

/-- What the state machine can return: 1 with every byte consumed, or 0 right after a
TAIL byte, with the frame published and the bytes after that TAIL left over. -/
theorem parse_result (bs : List Nat) :
    ∀ s : SerialProtocol_t,
      ((parse bs s).1 = 1 ∧ (parse bs s).2.2 = []) ∨
      ((parse bs s).1 = 0 ∧ (parse bs s).2.1.frame_ready = 1 ∧
        (parse bs s).2.1.rx_state = RX_STATE_FRAME_COMPLETE ∧
        ∃ c, bs = c ++ [FRAME_TAIL] ++ (parse bs s).2.2) := by
  induction bs with
  | nil => intro s; left; exact ⟨rfl, rfl⟩
  | cons b rest ih =>
    intro s
    rcases hstep : rxStep s b with ⟨_ | r, s1⟩
    · rw [parse_cons_none b rest s s1 hstep]
      rcases ih s1 with h | ⟨h1, h2, h3, c, hc⟩
      · left; exact h
      · right
        refine ⟨h1, h2, h3, b :: c, ?_⟩
        rw [List.cons_append, List.cons_append, ← hc]
    · rw [parse_cons_some b rest s s1 r hstep]
      obtain ⟨e1, e2, e3, e4⟩ := rxStep_some s s1 b r hstep
      right
      exact ⟨e1, e3, e4, [], by simp [e2]⟩

theorem send_protocol (transmit : TxCall → HAL_StatusTypeDef) (s : SerialProtocol_t)
    (data : List Nat) (dl timeout : Nat) :
    (SerialProtocol_Send transmit s data dl timeout).protocol = s := by
  unfold SerialProtocol_Send
  dsimp only
  split_ifs <;> rfl

theorem get_protocol_cases (s : SerialProtocol_t) (data : List Nat) (dl : Nat) :
    (SerialProtocol_GetReceivedFrame s data dl).protocol = s ∨
    (SerialProtocol_GetReceivedFrame s data dl).protocol
      = { s with frame_ready := 0, rx_state := RX_STATE_IDLE } := by
  by_cases h : s.frame_ready = 0
  · left; rw [get_none s data dl h]
  · right; rw [get_pending s data dl h]

/-- The invariant holds in every reachable state. -/
theorem reachable_inv (s : SerialProtocol_t) (hr : Reachable s) : ProtoInv s := by
  induction hr with
  | init p0 h =>
    exact ⟨ringOK_init p0 h, by simp [SerialProtocol_Init], by simp [SerialProtocol_Init],
      by simp [SerialProtocol_Init]⟩
  | rx s b _ _ ih =>
    have hok : RingOK { s with rx_byte := b } := ⟨ih.ring.len, ih.ring.head, ih.ring.tail⟩
    obtain ⟨w1, _⟩ := buffer_write_contents { s with rx_byte := b } b hok
    obtain ⟨_, f2, _, f4, f5, _⟩ := buffer_write_fields { s with rx_byte := b } b
    exact ⟨w1, by rw [deliver, SerialProtocol_RxCallback, f4]; exact ih.fd,
      by rw [deliver, SerialProtocol_RxCallback, f2]; exact ih.el,
      by rw [deliver, SerialProtocol_RxCallback, f5]; exact ih.fl⟩
  | process s s1 r _ hp ih =>
    obtain ⟨e1, e2, _⟩ := process_eq_parse s ih.ring
    rw [hp] at e1
    have hs1 := (Prod.mk.inj (Option.some.inj e1)).2
    obtain ⟨i1, i2, i3⟩ := parse_inv (ringContents s) s ih.fd ih.el ih.fl
    rw [hs1]
    exact ⟨e2, i1, i2, i3⟩
  | get s data dl _ ih =>
    rcases get_protocol_cases s data dl with h | h
    · rw [h]; exact ih
    · rw [h]; exact ⟨⟨ih.ring.len, ih.ring.head, ih.ring.tail⟩, ih.fd, ih.el, ih.fl⟩
  | send s transmit data dl timeout _ ih =>
    rw [send_protocol]; exact ih

/-! ## Consumption claims -/

theorem pendingProtocol_reachable : Reachable pendingProtocol := by
  have h0 : Reachable (SerialProtocol_Init staleProtocol 1) := Reachable.init _ _
  have h1 := Reachable.rx _ 0xAA h0 (by decide)
  have h2 := Reachable.rx _ 0x01 h1 (by decide)
  have h3 := Reachable.rx _ 0x07 h2 (by decide)
  have h4 := Reachable.rx _ 0x08 h3 (by decide)
  have h5 := Reachable.rx _ 0xBB h4 (by decide)
  exact Reachable.process _ pendingProtocol 0 h5 (by rfl)

theorem bufferedProtocol_reachable : Reachable bufferedProtocol := by
  have h0 : Reachable (SerialProtocol_Init staleProtocol 1) := Reachable.init _ _
  have h1 := Reachable.rx _ 0xAA h0 (by decide)
  have h2 := Reachable.rx _ 0x01 h1 (by decide)
  have h3 := Reachable.rx _ 0x07 h2 (by decide)
  have h4 := Reachable.rx _ 0x08 h3 (by decide)
  have h5 := Reachable.rx _ 0xBB h4 (by decide)
  have h6 := Reachable.rx _ 0x55 h5 (by decide)
  exact h6

theorem payloadBufferedProtocol_reachable : Reachable payloadBufferedProtocol := by
  have h0 : Reachable (SerialProtocol_Init staleProtocol 1) := Reachable.init _ _
  have h1 := Reachable.rx _ 0xAA h0 (by decide)
  have h2 := Reachable.rx _ 0x03 h1 (by decide)
  have h3 := Reachable.rx _ 0x07 h2 (by decide)
  exact h3

/-- Claim C9. Process consumption contract: in every reachable state `SerialProtocol_Process`
returns, with value 0 or 1, and never touches the stored bytes or the write index. If it
returns 1 the ring is empty afterwards (`rx_head = rx_tail`). If it returns 0 a frame is
pending, the bytes it consumed are a prefix of the buffered bytes ending in a TAIL byte,
and the bytes buffered after that TAIL are exactly the unread bytes afterwards. -/
theorem C9_process_consumption (s : SerialProtocol_t) (hr : Reachable s) :
    ∃ r s1, SerialProtocol_Process s = some (r, s1) ∧ (r = 0 ∨ r = 1) ∧
      s1.rx_buffer = s.rx_buffer ∧ s1.rx_head = s.rx_head ∧
      (r = 1 → s1.rx_head = s1.rx_tail) ∧
      (r = 0 → s1.frame_ready = 1 ∧
        ∃ consumed, ringContents s = consumed ++ [FRAME_TAIL] ++ ringContents s1) := by
  obtain ⟨e1, e2, e3⟩ := process_eq_parse s (reachable_inv s hr).ring
  obtain ⟨g1, g2, _⟩ := parse_ring (ringContents s) s
  refine ⟨_, _, e1, ?_, g1, g2, ?_, ?_⟩
  · rcases parse_result (ringContents s) s with h | h
    · right; exact h.1
    · left; exact h.1
  · intro h1
    rcases parse_result (ringContents s) s with h | h
    · exact (ringContents_eq_nil_iff _ e2).1 (e3.trans h.2)
    · rw [h.1] at h1
      exact absurd h1 (by decide)
  · intro h0
    rcases parse_result (ringContents s) s with h | ⟨_, h2, _, c, hc⟩
    · rw [h.1] at h0
      exact absurd h0 (by decide)
    · refine ⟨h2, c, ?_⟩
      rw [e3]
      exact hc

theorem C9_process_consumption_witness :
    Reachable bufferedProtocol ∧
      ringContents bufferedProtocol = [0xAA, 0x01, 0x07, 0x08, 0xBB, 0x55] ∧
      (SerialProtocol_Process bufferedProtocol).map (fun r => (r.1, ringContents r.2))
        = some (0, [0x55]) ∧
      (∃ r s1, SerialProtocol_Process bufferedProtocol = some (r, s1) ∧ (r = 0 ∨ r = 1) ∧
        s1.rx_buffer = bufferedProtocol.rx_buffer ∧ s1.rx_head = bufferedProtocol.rx_head ∧
        (r = 1 → s1.rx_head = s1.rx_tail) ∧
        (r = 0 → s1.frame_ready = 1 ∧
          ∃ consumed, ringContents bufferedProtocol
            = consumed ++ [FRAME_TAIL] ++ ringContents s1)) ∧
      Reachable payloadBufferedProtocol ∧
      ringContents payloadBufferedProtocol = [0xAA, 0x03, 0x07] ∧
      (SerialProtocol_Process payloadBufferedProtocol).map (fun r => (r.1, ringContents r.2))
        = some (1, []) ∧
      (∃ r s1, SerialProtocol_Process payloadBufferedProtocol = some (r, s1) ∧
        (r = 0 ∨ r = 1) ∧
        s1.rx_buffer = payloadBufferedProtocol.rx_buffer ∧
        s1.rx_head = payloadBufferedProtocol.rx_head ∧
        (r = 1 → s1.rx_head = s1.rx_tail) ∧
        (r = 0 → s1.frame_ready = 1 ∧
          ∃ consumed, ringContents payloadBufferedProtocol
            = consumed ++ [FRAME_TAIL] ++ ringContents s1)) :=
  ⟨bufferedProtocol_reachable, by rfl, by rfl,
    C9_process_consumption bufferedProtocol bufferedProtocol_reachable,
    payloadBufferedProtocol_reachable, by rfl, by rfl,
    C9_process_consumption payloadBufferedProtocol payloadBufferedProtocol_reachable⟩

/-- Claim C10. Inbox consumption: in every reachable state, with no frame pending
(`frame_ready = 0`) `SerialProtocol_GetReceivedFrame` returns -1 and changes neither
the protocol structure nor the caller buffers; with a frame pending it returns 0,
overwrites exactly the first `frame_length` bytes of the caller buffer with the payload,
stores `frame_length` in `*data_len`, clears `frame_ready` and sets the parser state to
Idle, so that a second call right after it returns -1 and changes nothing. -/
theorem C10_inbox_consumption (s : SerialProtocol_t) (data data2 : List Nat) (dl dl2 : Nat)
    (hr : Reachable s) :
    (s.frame_ready = 0 →
      SerialProtocol_GetReceivedFrame s data dl
        = { ret := -1, protocol := s, data := data, data_len := dl }) ∧
    (s.frame_ready ≠ 0 → s.frame_length ≤ data.length →
      (SerialProtocol_GetReceivedFrame s data dl).ret = 0 ∧
      (SerialProtocol_GetReceivedFrame s data dl).data
        = s.frame_data.take s.frame_length ++ data.drop s.frame_length ∧
      (SerialProtocol_GetReceivedFrame s data dl).data_len = s.frame_length ∧
      (SerialProtocol_GetReceivedFrame s data dl).protocol
        = { s with frame_ready := 0, rx_state := RX_STATE_IDLE } ∧
      SerialProtocol_GetReceivedFrame (SerialProtocol_GetReceivedFrame s data dl).protocol
          data2 dl2
        = { ret := -1, protocol := (SerialProtocol_GetReceivedFrame s data dl).protocol
            data := data2, data_len := dl2 }) := by
  have hinv := reachable_inv s hr
  refine ⟨fun h0 => get_none s data dl h0, fun h1 hlen => ?_⟩
  rw [get_pending s data dl h1]
  refine ⟨rfl, ?_, rfl, rfl, get_none _ data2 dl2 rfl⟩
  exact getCopyLoop_eq _ _ _ (by rw [hinv.fd]; exact hinv.fl) hlen

theorem C10_inbox_consumption_witness :
    Reachable pendingProtocol ∧
      (SerialProtocol_GetReceivedFrame pendingProtocol [0x11, 0x22] 9).ret = 0 ∧
      (SerialProtocol_GetReceivedFrame pendingProtocol [0x11, 0x22] 9).data = [0x07, 0x22] ∧
      (SerialProtocol_GetReceivedFrame
        (SerialProtocol_GetReceivedFrame pendingProtocol [0x11, 0x22] 9).protocol [0x33] 4).ret
        = -1 :=
  have h := (C10_inbox_consumption pendingProtocol [0x11, 0x22] [0x33] 9 4
    pendingProtocol_reachable).2 (by decide) (by decide)
  ⟨pendingProtocol_reachable, h.1, h.2.1.trans (by decide), by rw [h.2.2.2.2]⟩

/-! ## The encoder -/

theorem sendCopyLoop_eq (data : List Nat) :
    ∀ (n : Nat) (frame : List Nat), n ≤ data.length → 2 + n ≤ frame.length →
      sendCopyLoop data n frame = frame.take 2 ++ data.take n ++ frame.drop (2 + n) := by
  intro n
  induction n with
  | zero => intro frame _ _; simp [sendCopyLoop]
  | succ n ih =>
    intro frame h1 h2
    rw [sendCopyLoop, ih frame (by omega) (by omega)]
    have hl : (frame.take 2 ++ data.take n).length = 2 + n := by
      simp; omega
    rw [List.set_append_right _ _ (by omega), hl, Nat.sub_self]
    have hd : frame.drop (2 + n) = frame[2 + n] :: frame.drop (2 + n + 1) :=
      List.drop_eq_getElem_cons (by omega)
    have hf : data.getD n 0 = data[n] := by
      simp [List.getD_eq_getElem?_getD, List.getElem?_eq_getElem (show n < data.length by omega)]
    rw [hd, List.set_cons_zero, hf, List.take_succ (n := n),
      List.getElem?_eq_getElem (show n < data.length by omega)]
    simp only [Option.toList, List.append_assoc, List.singleton_append, List.cons_append,
      List.nil_append]
    rfl

/-- The value `SerialProtocol_Send` stores in the checksum cell: the sum over the
`(1 + data_len) mod 256` bytes starting at the length byte. -/
theorem sendFrame_eq (p : List Nat) (hlen : p.length ≤ MAX_DATA_LENGTH) :
    sendFrame p p.length
      = [FRAME_HEAD, p.length] ++ p
          ++ [calculate_checksum (p.length :: p) ((1 + p.length) % 256), FRAME_TAIL]
          ++ List.replicate (MAX_DATA_LENGTH - p.length) 0 := by
  simp only [MAX_DATA_LENGTH] at hlen
  have h2 : ((List.replicate (4 + MAX_DATA_LENGTH) 0).set 0 FRAME_HEAD).set 1 p.length
      = FRAME_HEAD :: p.length :: List.replicate 257 0 := rfl
  have hz : List.replicate (257 - p.length) 0
      = 0 :: 0 :: List.replicate (MAX_DATA_LENGTH - p.length) 0 := by
    have : 257 - p.length = (MAX_DATA_LENGTH - p.length) + 1 + 1 := by
      simp only [MAX_DATA_LENGTH]; omega
    rw [this, List.replicate_succ, List.replicate_succ]
  have h3 : sendCopyLoop p p.length (FRAME_HEAD :: p.length :: List.replicate 257 0)
      = ([FRAME_HEAD, p.length] ++ p)
          ++ 0 :: 0 :: List.replicate (MAX_DATA_LENGTH - p.length) 0 := by
    rw [sendCopyLoop_eq p p.length _ (Nat.le_refl _)
      (by simp only [List.length_cons, List.length_replicate]; omega)]
    have hd : (FRAME_HEAD :: p.length :: List.replicate 257 0).drop (2 + p.length)
        = List.replicate (257 - p.length) 0 := by
      rw [Nat.add_comm 2 p.length, List.drop_succ_cons, List.drop_succ_cons,
        List.drop_replicate]
    rw [hd, hz, List.take_length]
    rfl
  have hA : ([FRAME_HEAD, p.length] ++ p).length = 2 + p.length := by
    simp; omega
  have hck : calculate_checksum
        ((([FRAME_HEAD, p.length] ++ p)
          ++ 0 :: 0 :: List.replicate (MAX_DATA_LENGTH - p.length) 0).drop 1)
        ((1 + p.length) % 256)
      = calculate_checksum (p.length :: p) ((1 + p.length) % 256) := by
    have hdrop : (([FRAME_HEAD, p.length] ++ p)
          ++ 0 :: 0 :: List.replicate (MAX_DATA_LENGTH - p.length) 0).drop 1
        = (p.length :: p) ++ 0 :: 0 :: List.replicate (MAX_DATA_LENGTH - p.length) 0 := rfl
    rw [hdrop, calculate_checksum_eq, calculate_checksum_eq,
      List.take_append_of_le_length (by
        have := Nat.mod_le (1 + p.length) 256
        simp only [List.length_cons]; omega)]
  unfold sendFrame
  simp only [h2, h3, hck]
  rw [List.set_append_right _ _ (by omega), hA, Nat.sub_self, List.set_cons_zero]
  rw [List.set_append_right _ _ (by omega), hA]
  have h1 : 3 + p.length - (2 + p.length) = 1 := by omega
  rw [h1]
  simp

/-- For payloads of at most 254 bytes the array `SerialProtocol_Send` builds is the wire
format, followed by the unused cells. -/
theorem sendFrame_wire (p : List Nat) (hlen : p.length < MAX_DATA_LENGTH) :
    sendFrame p p.length = wireFrame p ++ List.replicate (MAX_DATA_LENGTH - p.length) 0 := by
  rw [sendFrame_eq p (Nat.le_of_lt hlen)]
  simp only [MAX_DATA_LENGTH] at hlen
  have hm : (1 + p.length) % 256 = (p.length :: p).length := by
    simp only [List.length_cons]; omega
  rw [calculate_checksum_eq, hm, List.take_length]
  rfl

/-- For a payload of 255 bytes the checksum cell is 0 whatever the payload. -/
theorem sendFrame_full (p : List Nat) (hlen : p.length = MAX_DATA_LENGTH) :
    sendFrame p p.length
      = [FRAME_HEAD, p.length] ++ p ++ [0, FRAME_TAIL] := by
  rw [sendFrame_eq p (Nat.le_of_eq hlen)]
  have hm : (1 + p.length) % 256 = 0 := by
    rw [hlen]; decide
  have hc : calculate_checksum (p.length :: p) 0 = 0 := by
    rw [calculate_checksum_eq]; rfl
  rw [hm, hc, hlen, Nat.sub_self, List.replicate_zero, List.append_nil]

theorem send_calls (transmit : TxCall → HAL_StatusTypeDef) (s : SerialProtocol_t)
    (data : List Nat) (dl timeout : Nat) (h : dl ≤ MAX_DATA_LENGTH) :
    (SerialProtocol_Send transmit s data dl timeout).calls
      = [{ huart := s.huart, pData := sendFrame data dl, Size := sendFrameLen dl,
           Timeout := timeout }] := by
  have hm : dl % 256 = dl := Nat.mod_eq_of_lt (by simp only [MAX_DATA_LENGTH] at h; omega)
  have hn : ¬ dl > MAX_DATA_LENGTH := Nat.not_lt.2 h
  unfold SerialProtocol_Send
  simp only [hm]
  rw [if_neg hn]
  split_ifs <;> rfl

/-- For payloads of 1 to 251 bytes the bytes handed to the transport are the wire
format of the payload. -/
theorem sentBytes_wire (transmit : TxCall → HAL_StatusTypeDef) (s : SerialProtocol_t)
    (p : List Nat) (timeout : Nat) (hlen : p.length ≤ 251) :
    sentBytes (SerialProtocol_Send transmit s p p.length timeout) = wireFrame p := by
  rw [sentBytes, send_calls transmit s p p.length timeout (by simp only [MAX_DATA_LENGTH]; omega)]
  simp only [List.foldr_cons, List.foldr_nil, List.append_nil, TxCall.wire, sendFrameLen]
  rw [sendFrame_wire p (by simp only [MAX_DATA_LENGTH]; omega)]
  have hm : (4 + p.length) % 256 = (wireFrame p).length := by
    simp [wireFrame]; omega
  rw [hm, List.take_left]

/-- The round trip holds for payloads of 1 to 251 bytes. -/
theorem roundTrip_ok (p0 : SerialProtocol_t) (h : Nat) (p data : List Nat) (dl : Nat)
    (h1 : 1 ≤ p.length) (h2 : p.length ≤ 251) (hdata : p.length ≤ data.length) :
    ∃ g, roundTrip p0 h p data dl = some (0, g) ∧ g.ret = 0 ∧ g.data_len = p.length ∧
      g.data.take p.length = p := by
  obtain ⟨s1, e1, a1, a2, a3⟩ := process_frame_fresh p0 h [] p data dl (by simp) h1
    (by simp only [MAX_DATA_LENGTH]; omega) (by simp only [RX_BUFFER_SIZE]; simp; omega) hdata
  rw [List.nil_append] at e1
  refine ⟨SerialProtocol_GetReceivedFrame s1 data dl, ?_, a1, a2, a3⟩
  simp only [roundTrip, sentBytes_wire okTransmit p0 p 0 h2, e1]

/-- In Idle the four bytes `HEAD, 0, 0, TAIL` are consumed without completing a frame: the
parser treats the TAIL byte as a second checksum byte and falls back to Idle. -/
theorem parse_empty_frame (s : SerialProtocol_t) (hst : s.rx_state = RX_STATE_IDLE) :
    parse [FRAME_HEAD, 0, 0, FRAME_TAIL] s
      = (1, { s with rx_state := RX_STATE_IDLE, received_length := 0, expected_length := 0 },
          []) := by
  rcases s with ⟨hu, buf, hd, tl, rb, st, el, rl, fd, fl, fc, fr⟩
  simp only at hst
  subst hst
  simp [parse, rxStep, calculate_checksum, checksumLoop]

/-- In Idle the five bytes `HEAD, 0, 0, 0, TAIL` complete a frame of length 0. -/
theorem parse_empty_frame_doubled (s : SerialProtocol_t) (hst : s.rx_state = RX_STATE_IDLE) :
    (parse [FRAME_HEAD, 0, 0, 0, FRAME_TAIL] s).1 = 0 ∧
      (parse [FRAME_HEAD, 0, 0, 0, FRAME_TAIL] s).2.1.frame_ready = 1 ∧
      (parse [FRAME_HEAD, 0, 0, 0, FRAME_TAIL] s).2.1.frame_length = 0 := by
  rcases s with ⟨hu, buf, hd, tl, rb, st, el, rl, fd, fl, fc, fr⟩
  simp only at hst
  subst hst
  simp [parse, rxStep, calculate_checksum, checksumLoop]

/-- On every freshly initialised protocol the wire format of the empty payload is
consumed without a frame being delivered. -/
theorem empty_frame_rejected_fresh (p0 : SerialProtocol_t) (h : Nat) :
    ∃ s1, SerialProtocol_Process
          (writeAll (SerialProtocol_Init p0 h) [FRAME_HEAD, 0, 0, FRAME_TAIL]) = some (1, s1) ∧
      s1.rx_state = RX_STATE_IDLE ∧ s1.frame_ready = 0 ∧
      ∀ data dl, (SerialProtocol_GetReceivedFrame s1 data dl).ret = -1 := by
  obtain ⟨k1, k2, k3, _, k5⟩ := fresh_written p0 h [FRAME_HEAD, 0, 0, FRAME_TAIL] (by decide)
  obtain ⟨e1, _, _⟩ := process_eq_parse _ k1
  rw [k2, parse_empty_frame _ k3] at e1
  refine ⟨_, e1, rfl, k5, fun data dl => ?_⟩
  exact congrArg GetResult.ret (get_none _ data dl k5)

theorem sendFrameLen_small (dl : Nat) (h : dl ≤ 251) : sendFrameLen dl = 4 + dl := by
  unfold sendFrameLen; omega

theorem sendFrameLen_wrapped (dl : Nat) (h1 : 252 ≤ dl) (h2 : dl ≤ MAX_DATA_LENGTH) :
    sendFrameLen dl = dl - 252 := by
  simp only [MAX_DATA_LENGTH] at h2
  unfold sendFrameLen; omega

set_option maxRecDepth 100000 in
/-- For payloads of 252 to 255 bytes `frame_len` has wrapped, so fewer than four bytes
reach the transport; for 252 bytes none does, and nothing is received. -/
theorem roundTrip_fails_at_252 :
    sentBytes (SerialProtocol_Send okTransmit staleProtocol (List.replicate 252 0x5A) 252 0) = [] ∧
      (roundTrip staleProtocol 1 (List.replicate 252 0x5A) (List.replicate 252 0) 9).map
          (fun r => (r.1, r.2.ret, r.2.data_len))
        = some (1, -1, 9) := by
  constructor
  · rfl
  · rfl

/-! ## Encoder and zero-length claims -/

/-- Claim C1 (round trip), evaluated at the empty payload: `SerialProtocol_Send` hands the
four bytes `AA 00 00 BB` to the transport; written into a freshly initialised protocol
they make `SerialProtocol_Process` return 1 (no frame), and
`SerialProtocol_GetReceivedFrame` returns -1 leaving the caller's buffers as they were.
The claim says 0 and a delivered frame of length 0. -/
theorem C1_roundtrip_fails_for_empty_payload :
    sentBytes (SerialProtocol_Send okTransmit staleProtocol [] 0 0) = [0xAA, 0x00, 0x00, 0xBB] ∧
      (roundTrip staleProtocol 1 [] [0x11] 9).map
          (fun r => (r.1, r.2.ret, r.2.data, r.2.data_len))
        = some (1, -1, [0x11], 9) := by
  constructor
  · decide
  · decide

set_option maxRecDepth 100000 in
/-- Claim C2 (encoder wire layout), evaluated at a payload of 255 zero bytes: the checksum
cell `frame[2 + 255]` holds 0, while `(L + sum of the payload) mod 256` is 255. -/
theorem C2_checksum_cell_at_length_255 :
    (sendFrame (List.replicate 255 0) 255).getD (2 + 255) 0 = 0 ∧
      (255 + byteSum (List.replicate 255 0)) % 256 = 255 := by
  constructor
  · rfl
  · rfl

/-- Claim C3 (transmitted frame size), evaluated at a payload of 252 bytes: the `Size`
passed to `HAL_UART_Transmit` is 0, while `4 + L` is 256. -/
theorem C3_frame_len_wraps_at_252 :
    (SerialProtocol_Send okTransmit staleProtocol (List.replicate 252 0) 252 0).calls.map
        TxCall.Size = [0] ∧ 4 + 252 = 256 := by
  constructor
  · rfl
  · rfl

/-- Claim C4 (zero-length boundary), evaluated on the code: after `HEAD, 0x00, 0x00, TAIL`
is written into a freshly initialised protocol, `SerialProtocol_Process` returns 1, the
parser is in Idle with `frame_ready = 0`, and `SerialProtocol_GetReceivedFrame` returns
-1. The claim says 0 and a delivered frame of length 0. -/
theorem C4_zero_length_frame_rejected :
    (SerialProtocol_Process
        (writeAll (SerialProtocol_Init staleProtocol 1) [FRAME_HEAD, 0x00, 0x00, FRAME_TAIL])).map
        (fun r => (r.1, r.2.rx_state, r.2.frame_ready,
          (SerialProtocol_GetReceivedFrame r.2 [0x11] 9).ret))
      = some (1, RX_STATE_IDLE, 0, -1) := by
  decide

/-! ## Parser invariant -/

theorem rxStep_parserInv (s : SerialProtocol_t) (b : Nat) (h : ParserInv s) :
    ParserInv (rxStep s b).2 := by
  obtain ⟨h1, h2, h3⟩ := h
  rcases s with ⟨hu, buf, hd, tl, rb, st, el, rl, fd, fl, fc, fr⟩
  simp only at h1 h2 h3
  cases st <;> simp only [rxStep] <;> (try split_ifs) <;> (try dsimp only) <;>
    refine ⟨?_, ?_, ?_⟩ <;> simp_all

theorem parse_parserInv (bs : List Nat) :
    ∀ s : SerialProtocol_t, ParserInv s → ParserInv (parse bs s).2.1 := by
  induction bs with
  | nil => intro s h; exact h
  | cons b rest ih =>
    intro s h
    have hi := rxStep_parserInv s b h
    rcases hstep : rxStep s b with ⟨_ | r, s1⟩
    · rw [hstep] at hi
      rw [parse_cons_none b rest s s1 hstep]
      exact ih s1 hi
    · rw [hstep] at hi
      rw [parse_cons_some b rest s s1 r hstep]
      exact hi

/-- The parser invariant holds in every reachable state. -/
theorem reachable_parserInv (s : SerialProtocol_t) (hr : Reachable s) : ParserInv s := by
  induction hr with
  | init p0 h =>
    exact ⟨Or.inr ⟨rfl, by simp [SerialProtocol_Init]⟩, by simp [SerialProtocol_Init],
      by simp [SerialProtocol_Init]⟩
  | rx s b _ _ ih =>
    obtain ⟨f1, f2, f3, _, f5, _, f7, _, _⟩ := buffer_write_fields { s with rx_byte := b } b
    obtain ⟨h1, h2, h3⟩ := ih
    refine ⟨?_, ?_, ?_⟩
    · rw [deliver, SerialProtocol_RxCallback, f1, f2, f5, f7]; exact h1
    · rw [deliver, SerialProtocol_RxCallback, f1, f3]; exact h2
    · rw [deliver, SerialProtocol_RxCallback, f1, f2, f3]; exact h3
  | process s s1 r hrs hp ih =>
    obtain ⟨e1, _, _⟩ := process_eq_parse s (reachable_inv s hrs).ring
    rw [hp] at e1
    have hs1 := (Prod.mk.inj (Option.some.inj e1)).2
    obtain ⟨i1, i2, i3⟩ := parse_parserInv (ringContents s) s ih
    rw [hs1]
    exact ⟨i1, i2, i3⟩
  | get s data dl _ ih =>
    rcases get_protocol_cases s data dl with h | h
    · rw [h]; exact ih
    · rw [h]
      exact ⟨Or.inr ⟨rfl, by simp⟩, by simp, by simp⟩
  | send s transmit data dl timeout _ ih =>
    rw [send_protocol]; exact ih

/-! ## Pending-frame claims -/

theorem backlogProtocol_reachable : Reachable backlogProtocol := by
  have h0 : Reachable (SerialProtocol_Init staleProtocol 1) := Reachable.init _ _
  have h1 := Reachable.rx _ 0xAA h0 (by decide)
  have h2 := Reachable.rx _ 0x01 h1 (by decide)
  have h3 := Reachable.rx _ 0x07 h2 (by decide)
  have h4 := Reachable.rx _ 0x08 h3 (by decide)
  have h5 := Reachable.rx _ 0xBB h4 (by decide)
  have h6 := Reachable.rx _ 0x55 h5 (by decide)
  exact Reachable.process _ backlogProtocol 0 h6 (by rfl)

/-- In FrameComplete the state machine swallows every byte and changes nothing. -/
theorem parse_frame_complete (bs : List Nat) (s : SerialProtocol_t)
    (hst : s.rx_state = RX_STATE_FRAME_COMPLETE) : parse bs s = (1, s, []) := by
  induction bs with
  | nil => rfl
  | cons b rest ih =>
    have hstep : rxStep s b = (none, s) := by simp [rxStep, hst]
    rw [parse_cons_none b rest s s hstep, ih]

/-- With a frame pending, `SerialProtocol_Process` returns 1 and only moves the read
index, up to the write index. -/
theorem process_frame_complete (s : SerialProtocol_t) (hs : RingOK s)
    (hst : s.rx_state = RX_STATE_FRAME_COMPLETE) :
    SerialProtocol_Process s = some (1, { s with rx_tail := s.rx_head }) ∧
      ringContents { s with rx_tail := s.rx_head } = [] := by
  obtain ⟨e1, e2, e3⟩ := process_eq_parse s hs
  rw [parse_frame_complete _ s hst] at e1 e2 e3
  have hT : (s.rx_tail + ((ringContents s).length - ([] : List Nat).length)) % RX_BUFFER_SIZE
      = s.rx_head := by
    have h1 := hs.head
    have h2 := hs.tail
    rw [ringContents, ringTake_length]
    simp only [ringCount, RX_BUFFER_SIZE, List.length_nil] at h1 h2 ⊢
    omega
  simp only [hT] at e1 e3
  exact ⟨e1, e3⟩

/-- Claim C11. One-slot inbox: in every reachable state with a completed frame pending
(`frame_ready = 1`), whatever the ring buffer holds, `SerialProtocol_Process` returns 1
and leaves `frame_ready`, `frame_length`, `frame_data` and the parser state, which is
FrameComplete, unchanged. -/
theorem C11_one_slot_inbox (s : SerialProtocol_t) (hr : Reachable s)
    (hp : s.frame_ready = 1) :
    ∃ s1, SerialProtocol_Process s = some (1, s1) ∧ s1.frame_ready = s.frame_ready ∧
      s1.frame_length = s.frame_length ∧ s1.frame_data = s.frame_data ∧
      s1.rx_state = s.rx_state ∧ s1.rx_state = RX_STATE_FRAME_COMPLETE := by
  have hst : s.rx_state = RX_STATE_FRAME_COMPLETE := by
    rcases (reachable_parserInv s hr).ready with h | h
    · exact h.2.1
    · rw [hp] at h; exact absurd h.1 (by decide)
  obtain ⟨e1, _⟩ := process_frame_complete s (reachable_inv s hr).ring hst
  exact ⟨_, e1, rfl, rfl, rfl, rfl, hst⟩

theorem C11_one_slot_inbox_witness :
    Reachable backlogProtocol ∧ backlogProtocol.frame_ready = 1 ∧
      ∃ s1, SerialProtocol_Process backlogProtocol = some (1, s1) ∧
        s1.frame_ready = backlogProtocol.frame_ready ∧
        s1.frame_length = backlogProtocol.frame_length ∧
        s1.frame_data = backlogProtocol.frame_data ∧
        s1.rx_state = backlogProtocol.rx_state ∧ s1.rx_state = RX_STATE_FRAME_COMPLETE :=
  ⟨backlogProtocol_reachable, rfl, C11_one_slot_inbox backlogProtocol backlogProtocol_reachable rfl⟩

/-- Claim C12 as stated fails: in the reachable state `backlogProtocol` a frame is
pending and the ring holds the unread byte `55` (`rx_tail = 5`); `SerialProtocol_Process`
returns 1 having moved `rx_tail` to 6, and the ring is empty afterwards. -/
theorem C12_backlog_byte_removed :
    Reachable backlogProtocol ∧ backlogProtocol.rx_state = RX_STATE_FRAME_COMPLETE ∧
      backlogProtocol.rx_tail = 5 ∧ ringContents backlogProtocol = [0x55] ∧
      (SerialProtocol_Process backlogProtocol).map
          (fun r => (r.1, r.2.rx_tail, ringContents r.2)) = some (1, 6, []) :=
  ⟨backlogProtocol_reachable, rfl, rfl, by rfl, by rfl⟩

/-- Claim C12, amended. In every reachable state with the parser in FrameComplete,
whatever the ring buffer holds, `SerialProtocol_Process` parses no byte but removes every
buffered byte: it returns 1 and changes nothing in the structure except `rx_tail`, which
becomes `rx_head`, so the ring is empty afterwards. -/
theorem C12_backlog_discarded (s : SerialProtocol_t) (hr : Reachable s)
    (hst : s.rx_state = RX_STATE_FRAME_COMPLETE) :
    SerialProtocol_Process s = some (1, { s with rx_tail := s.rx_head }) ∧
      ringContents { s with rx_tail := s.rx_head } = [] :=
  process_frame_complete s (reachable_inv s hr).ring hst

theorem C12_backlog_discarded_witness :
    Reachable backlogProtocol ∧ backlogProtocol.rx_state = RX_STATE_FRAME_COMPLETE ∧
      SerialProtocol_Process backlogProtocol
        = some (1, { backlogProtocol with rx_tail := backlogProtocol.rx_head }) :=
  ⟨backlogProtocol_reachable, rfl,
    (C12_backlog_discarded backlogProtocol backlogProtocol_reachable rfl).1⟩

/-- Claim C18. Ready flag and parser state agree: in every reachable state
`frame_ready = 1` if and only if the parser state is `RX_STATE_FRAME_COMPLETE`, and in
that case `frame_length = expected_length`. -/
theorem C18_ready_iff_frame_complete (s : SerialProtocol_t) (hr : Reachable s) :
    (s.frame_ready = 1 ↔ s.rx_state = RX_STATE_FRAME_COMPLETE) ∧
      (s.frame_ready = 1 → s.frame_length = s.expected_length) := by
  rcases (reachable_parserInv s hr).ready with h | h
  · exact ⟨⟨fun _ => h.2.1, fun _ => h.1⟩, fun _ => h.2.2⟩
  · refine ⟨⟨fun h1 => ?_, fun h2 => absurd h2 h.2⟩, fun h1 => ?_⟩
    · rw [h.1] at h1; exact absurd h1 (by decide)
    · rw [h.1] at h1; exact absurd h1 (by decide)

theorem C18_ready_iff_frame_complete_witness :
    Reachable pendingProtocol ∧
      (pendingProtocol.frame_ready = 1 ↔ pendingProtocol.rx_state = RX_STATE_FRAME_COMPLETE) ∧
      (pendingProtocol.frame_ready = 1 →
        pendingProtocol.frame_length = pendingProtocol.expected_length) :=
  ⟨pendingProtocol_reachable, C18_ready_iff_frame_complete pendingProtocol pendingProtocol_reachable⟩

/-! ## Bounds claims -/

theorem payloadProtocol_reachable : Reachable payloadProtocol := by
  have h0 : Reachable (SerialProtocol_Init staleProtocol 1) := Reachable.init _ _
  have h1 := Reachable.rx _ 0xAA h0 (by decide)
  have h2 := Reachable.rx _ 0x03 h1 (by decide)
  have h3 := Reachable.rx _ 0x07 h2 (by decide)
  exact Reachable.process _ payloadProtocol 1 h3 (by rfl)

theorem sendCopyLoop_length (data : List Nat) :
    ∀ (n : Nat) (frame : List Nat), (sendCopyLoop data n frame).length = frame.length := by
  intro n
  induction n with
  | zero => intro frame; rfl
  | succ n ih => intro frame; rw [sendCopyLoop, List.length_set, ih]

theorem sendFrame_length (data : List Nat) (dl : Nat) :
    (sendFrame data dl).length = 4 + MAX_DATA_LENGTH := by
  unfold sendFrame
  simp only [List.length_set, sendCopyLoop_length, List.length_replicate]

theorem sendStoreIndices_lt (dl : Nat) (h : dl ≤ MAX_DATA_LENGTH) :
    ∀ i ∈ sendStoreIndices dl, i < 4 + MAX_DATA_LENGTH := by
  intro i hi
  simp only [MAX_DATA_LENGTH] at h ⊢
  simp only [sendStoreIndices, List.mem_append, List.mem_cons, List.mem_map, List.mem_range,
    List.mem_singleton, List.not_mem_nil, or_false] at hi
  rcases hi with ((h0 | h1) | ⟨j, hj, rfl⟩) | (h2 | h3) <;> omega

/-- Claim C19. Array accesses stay in bounds: in every reachable state `rx_head` and
`rx_tail` are below `RX_BUFFER_SIZE`, the size of `rx_buffer`; `frame_data` has
`MAX_DATA_LENGTH` cells, and whenever the parser is in LengthReceived with
`expected_length > 0` then `received_length < expected_length`, so the index of the
payload store `frame_data[received_length]` is below `MAX_DATA_LENGTH`; and for every
`data_len <= MAX_DATA_LENGTH` every index `SerialProtocol_Send` stores to in `frame`
(the largest is `3 + data_len`) is below `4 + MAX_DATA_LENGTH`, the size of `frame`. -/
theorem C19_accesses_in_bounds (s : SerialProtocol_t) (data : List Nat) (dl : Nat)
    (hr : Reachable s) :
    s.rx_head < RX_BUFFER_SIZE ∧ s.rx_tail < RX_BUFFER_SIZE ∧
      s.rx_buffer.length = RX_BUFFER_SIZE ∧ s.frame_data.length = MAX_DATA_LENGTH ∧
      (s.rx_state = RX_STATE_LENGTH_RECEIVED → 0 < s.expected_length →
        s.received_length < s.expected_length ∧ s.received_length < s.frame_data.length) ∧
      (dl ≤ MAX_DATA_LENGTH →
        (sendFrame data dl).length = 4 + MAX_DATA_LENGTH ∧
        3 + dl ∈ sendStoreIndices dl ∧
        ∀ i ∈ sendStoreIndices dl, i < (sendFrame data dl).length) := by
  have h1 := reachable_inv s hr
  have h2 := reachable_parserInv s hr
  refine ⟨h1.ring.head, h1.ring.tail, h1.ring.len, h1.fd, fun hst hpos => ?_, fun hdl => ?_⟩
  · have hlt := h2.lr hst hpos
    refine ⟨hlt, ?_⟩
    rw [h1.fd]
    exact Nat.lt_of_lt_of_le hlt h1.el
  · refine ⟨sendFrame_length data dl, by simp [sendStoreIndices], ?_⟩
    rw [sendFrame_length]
    exact sendStoreIndices_lt dl hdl

theorem C19_accesses_in_bounds_witness :
    Reachable payloadProtocol ∧ payloadProtocol.rx_head < RX_BUFFER_SIZE ∧
      payloadProtocol.received_length < payloadProtocol.frame_data.length ∧
      ∀ i ∈ sendStoreIndices 255, i < (sendFrame [] 255).length :=
  have h := C19_accesses_in_bounds payloadProtocol [] 255 payloadProtocol_reachable
  ⟨payloadProtocol_reachable, h.1, (h.2.2.2.2.1 rfl (by decide)).2,
    (h.2.2.2.2.2 (by decide)).2.2⟩

/-! ## Encoder result, checksum, termination and length-check claims -/

theorem sum_le_of_bytes (X : List Nat) (hb : ∀ x ∈ X, x < 256) : X.sum ≤ 255 * X.length := by
  induction X with
  | nil => simp
  | cons a l ih =>
    have ha := hb a (by simp)
    have hl := ih (fun x hx => hb x (by simp [hx]))
    simp only [List.sum_cons, List.length_cons]
    omega

theorem rxStep_checksum_bad (s : SerialProtocol_t) (b : Nat)
    (hst : s.rx_state = RX_STATE_DATA_RECEIVING)
    (heq : s.received_length = s.expected_length)
    (hb : b ≠ (s.expected_length + (s.frame_data.take s.expected_length).sum) % 256) :
    rxStep s b = (none, { s with rx_state := RX_STATE_IDLE }) := by
  have hc : ((calculate_checksum [s.expected_length] 1
        + calculate_checksum s.frame_data s.expected_length) % 256) &&& 0xFF
      = (s.expected_length + (s.frame_data.take s.expected_length).sum) % 256 := by
    rw [show (0xFF : Nat) = 2 ^ 8 - 1 by norm_num, Nat.and_pow_two_sub_one_eq_mod,
      calculate_checksum_eq, calculate_checksum_eq]
    simp
  simp only [rxStep, hst, heq, hc, if_true, if_neg hb]

/-- Claim C15. Checksum definition and composability: for every byte span `X` of length at
most 255, `calculate_checksum` returns the sum of the bytes modulo 256 and the 16-bit
accumulator holds the exact sum; for all spans `A`, `B` (in particular those with
`|A| + |B| <= 255`) the two checksums added modulo 256 give the checksum of `A ++ B`;
and in DataReceiving with the payload complete the value the parser compares the byte
with is `(expected_length + sum of the received payload) mod 256`, for every
`expected_length`: the byte is accepted (the parser stays in DataReceiving) exactly when
it equals that value. -/
theorem C15_checksum (X A B : List Nat) (s : SerialProtocol_t) (b : Nat)
    (hX : X.length ≤ 255) (hXb : ∀ x ∈ X, x < 256)
    (hst : s.rx_state = RX_STATE_DATA_RECEIVING)
    (heq : s.received_length = s.expected_length) :
    calculate_checksum X X.length = byteSum X % 256 ∧
      checksumLoop X X.length = byteSum X ∧
      (calculate_checksum A A.length + calculate_checksum B B.length) % 256
        = calculate_checksum (A ++ B) (A.length + B.length) ∧
      ((calculate_checksum [s.expected_length] 1
          + calculate_checksum s.frame_data s.expected_length) % 256) &&& 0xFF
        = (s.expected_length + byteSum (s.frame_data.take s.expected_length)) % 256 ∧
      ((rxStep s b).2.rx_state = RX_STATE_DATA_RECEIVING ↔
        b = (s.expected_length + byteSum (s.frame_data.take s.expected_length)) % 256) := by
  refine ⟨?_, ?_, ?_, ?_, ?_⟩
  · rw [calculate_checksum_eq, List.take_length, byteSum]
  · rw [checksumLoop_eq, List.take_length, byteSum]
    have := sum_le_of_bytes X hXb
    omega
  · rw [calculate_checksum_eq, calculate_checksum_eq, calculate_checksum_eq,
      List.take_length, List.take_length, ← List.length_append, List.take_length,
      List.sum_append]
    omega
  · rw [show (0xFF : Nat) = 2 ^ 8 - 1 by norm_num, Nat.and_pow_two_sub_one_eq_mod,
      calculate_checksum_eq, calculate_checksum_eq, byteSum]
    simp
  · by_cases hb : b = (s.expected_length + (s.frame_data.take s.expected_length).sum) % 256
    · rw [byteSum, hb, rxStep_checksum_ok s hst heq]
      exact ⟨fun _ => rfl, fun _ => hst⟩
    · rw [byteSum, rxStep_checksum_bad s b hst heq hb]
      exact ⟨fun h => absurd (show RX_STATE_IDLE = RX_STATE_DATA_RECEIVING from h) (by decide),
        fun h => absurd h hb⟩

theorem C15_checksum_witness :
    [0x01, 0xFF].length ≤ 255 ∧ (∀ x ∈ [0x01, 0xFF], x < 256) ∧
      checksumProtocol.rx_state = RX_STATE_DATA_RECEIVING ∧
      checksumProtocol.received_length = checksumProtocol.expected_length ∧
      calculate_checksum [0x01, 0xFF] [0x01, 0xFF].length = byteSum [0x01, 0xFF] % 256 ∧
      ((rxStep checksumProtocol 0x08).2.rx_state = RX_STATE_DATA_RECEIVING ↔
        0x08 = (checksumProtocol.expected_length
          + byteSum (checksumProtocol.frame_data.take checksumProtocol.expected_length)) % 256) :=
  have h := C15_checksum [0x01, 0xFF] [0x02] [0x03] checksumProtocol 0x08
    (by decide) (by decide) rfl rfl
  ⟨by decide, by decide, rfl, rfl, h.1, h.2.2.2.2⟩

theorem processLoop_mono :
    ∀ (n : Nat) (s : SerialProtocol_t) (x : Nat) (res : Int × SerialProtocol_t),
      processLoop n s x = some res → ∀ m, n ≤ m → processLoop m s x = some res := by
  intro n
  induction n with
  | zero => intro s x res h; simp [processLoop] at h
  | succ n ih =>
    intro s x res h m hm
    obtain ⟨k, rfl⟩ : ∃ k, m = k + 1 := ⟨m - 1, by omega⟩
    by_cases hav : buffer_available s ≠ 0
    · have hne : s.rx_head ≠ s.rx_tail := (buffer_available_ne_zero_iff s).1 hav
      obtain ⟨bb, hr⟩ : ∃ bb, buffer_read s x = (1, bb, popTail s) :=
        ⟨s.rx_buffer.getD s.rx_tail 0, by simp [buffer_read, hne, popTail]⟩
      rcases hstep : rxStep (popTail s) bb with ⟨_ | r, s1⟩
      · have e1 : ∀ f, processLoop (f + 1) s x = processLoop f s1 bb := by
          intro f; simp [processLoop, hav, hr, hstep]
        rw [e1] at h ⊢
        exact ih _ _ _ h k (by omega)
      · have e1 : ∀ f, processLoop (f + 1) s x = some (r, s1) := by
          intro f; simp [processLoop, hav, hr, hstep]
        rw [e1] at h ⊢
        exact h
    · have e1 : ∀ f, processLoop (f + 1) s x = some (1, s) := by
        intro f; simp [processLoop, hav]
      rw [e1] at h ⊢
      exact h

theorem ringCount_popTail (s : SerialProtocol_t) (hh : s.rx_head < RX_BUFFER_SIZE)
    (ht : s.rx_tail < RX_BUFFER_SIZE) (hne : s.rx_head ≠ s.rx_tail) :
    ringCount (popTail s) + 1 = ringCount s := by
  simp only [ringCount, popTail, RX_BUFFER_SIZE] at *
  omega

/-- With head and tail inside the ring, a budget of one more than the number of buffered
bytes is enough for the loop to return, and the loop never adds bytes. -/
theorem processLoop_terminates :
    ∀ (n : Nat) (s : SerialProtocol_t) (x : Nat), s.rx_head < RX_BUFFER_SIZE →
      s.rx_tail < RX_BUFFER_SIZE → ringCount s = n →
      ∃ r s1, processLoop (n + 1) s x = some (r, s1) ∧ ringCount s1 ≤ n := by
  intro n
  induction n with
  | zero =>
    intro s x hh ht hn
    have hht : s.rx_head = s.rx_tail := by
      simp only [ringCount, RX_BUFFER_SIZE] at *
      omega
    refine ⟨1, s, ?_, by omega⟩
    simp [processLoop, buffer_available, hht]
  | succ n ih =>
    intro s x hh ht hn
    have hne : s.rx_head ≠ s.rx_tail := by
      intro h
      simp only [ringCount, RX_BUFFER_SIZE, h] at *
      omega
    have hav : buffer_available s ≠ 0 := (buffer_available_ne_zero_iff s).2 hne
    obtain ⟨bb, hr⟩ : ∃ bb, buffer_read s x = (1, bb, popTail s) :=
      ⟨s.rx_buffer.getD s.rx_tail 0, by simp [buffer_read, hne, popTail]⟩
    have hpc := ringCount_popTail s hh ht hne
    obtain ⟨g1, g2, g3⟩ := rxStep_ring (popTail s) bb
    rcases hstep : rxStep (popTail s) bb with ⟨_ | r, s1⟩
    · rw [hstep] at g1 g2 g3
      simp only [] at g1 g2 g3
      have hc1 : ringCount s1 = n := by
        have : ringCount s1 = ringCount (popTail s) := by
          simp only [ringCount, g2, g3]
        omega
      have hh1 : s1.rx_head < RX_BUFFER_SIZE := by rw [g2]; exact hh
      have ht1 : s1.rx_tail < RX_BUFFER_SIZE := by
        rw [g3]; exact Nat.mod_lt _ (by decide)
      obtain ⟨r, s2, e, hle⟩ := ih s1 bb hh1 ht1 hc1
      refine ⟨r, s2, ?_, by omega⟩
      have e1 : processLoop (n + 1 + 1) s x = processLoop (n + 1) s1 bb := by
        simp [processLoop, hav, hr, hstep]
      rw [e1, e]
    · rw [hstep] at g1 g2 g3
      simp only [] at g1 g2 g3
      refine ⟨r, s1, by simp [processLoop, hav, hr, hstep], ?_⟩
      have : ringCount s1 = ringCount (popTail s) := by
        simp only [ringCount, g2, g3]
      omega

/-- Claim C16. Process terminates: for every structure with `rx_head` and `rx_tail` below
`RX_BUFFER_SIZE`, `SerialProtocol_Process` returns, and a budget of `k + 1` evaluations
of the loop condition is already enough, where `k = (rx_head - rx_tail) mod
RX_BUFFER_SIZE` is the number of bytes buffered at entry: at most `k` iterations of the
body and the last test. Every iteration consumes exactly one byte (the `buffer_read` of a
non-empty ring succeeds and lowers the count by one, the `switch` leaves the ring
alone), and the call ends with at most `k` bytes buffered. -/
theorem C16_process_terminates (s : SerialProtocol_t) (hh : s.rx_head < RX_BUFFER_SIZE)
    (ht : s.rx_tail < RX_BUFFER_SIZE) :
    (∃ r s1, SerialProtocol_Process s = some (r, s1) ∧
      processLoop (ringCount s + 1) s 0 = some (r, s1) ∧ ringCount s1 ≤ ringCount s) ∧
    (∀ x, s.rx_head ≠ s.rx_tail →
      (buffer_read s x).1 = 1 ∧ ringCount (buffer_read s x).2.2 + 1 = ringCount s) ∧
    (∀ b, ringCount (rxStep s b).2 = ringCount s) := by
  refine ⟨?_, fun x hne => ?_, fun b => ?_⟩
  · obtain ⟨r, s1, e, hle⟩ := processLoop_terminates (ringCount s) s 0 hh ht rfl
    refine ⟨r, s1, ?_, e, hle⟩
    have hk : ringCount s + 1 ≤ RX_BUFFER_SIZE := by
      have : ringCount s < RX_BUFFER_SIZE := Nat.mod_lt _ (by decide)
      omega
    exact processLoop_mono _ s 0 (r, s1) e RX_BUFFER_SIZE hk
  · have hr : buffer_read s x = (1, s.rx_buffer.getD s.rx_tail 0, popTail s) := by
      simp [buffer_read, hne, popTail]
    rw [hr]
    exact ⟨rfl, ringCount_popTail s hh ht hne⟩
  · obtain ⟨_, g2, g3⟩ := rxStep_ring s b
    simp only [ringCount, g2, g3]

theorem C16_process_terminates_witness :
    backlogProtocol.rx_head < RX_BUFFER_SIZE ∧ backlogProtocol.rx_tail < RX_BUFFER_SIZE ∧
      ∃ r s1, SerialProtocol_Process backlogProtocol = some (r, s1) ∧
        processLoop (ringCount backlogProtocol + 1) backlogProtocol 0 = some (r, s1) ∧
        ringCount s1 ≤ ringCount backlogProtocol :=
  ⟨by decide, by decide, (C16_process_terminates backlogProtocol (by decide) (by decide)).1⟩

theorem process_single (s : SerialProtocol_t) (b : Nat) (hs : RingOK s)
    (hc : ringContents s = [b]) (s1 : SerialProtocol_t) (hstep : rxStep s b = (none, s1)) :
    ∃ t, SerialProtocol_Process s = some (1, withTail s1 t) := by
  obtain ⟨e1, _, _⟩ := process_eq_parse s hs
  have hp : parse (ringContents s) s = (1, s1, []) := by
    rw [hc, parse_cons_none b [] s s1 hstep]
    rfl
  rw [hp] at e1
  exact ⟨_, e1⟩

/-- Claim C20. Length validation is vacuous for `MAX_DATA_LENGTH = 255`: for every byte
`b` (0..255) met in HeadFound the `switch` moves to LengthReceived with
`expected_length = b`, and so does `SerialProtocol_Process` when `b` is the byte
buffered; the branch back to Idle is not taken. Likewise for every `data_len` that fits a
`uint8_t` the test `data_len > MAX_DATA_LENGTH` of `SerialProtocol_Send` is false and
the transport is called. -/
theorem C20_length_check_vacuous (transmit : TxCall → HAL_StatusTypeDef)
    (s : SerialProtocol_t) (data : List Nat) (b dl timeout : Nat)
    (hb : b < 256) (hst : s.rx_state = RX_STATE_HEAD_FOUND) (hs : RingOK s)
    (hc : ringContents s = [b]) (hdl : dl < 256) :
    rxStep s b
        = (none, { s with expected_length := b, rx_state := RX_STATE_LENGTH_RECEIVED }) ∧
      (rxStep s b).2.rx_state ≠ RX_STATE_IDLE ∧
      (∃ s1, SerialProtocol_Process s = some (1, s1) ∧
        s1.rx_state = RX_STATE_LENGTH_RECEIVED ∧ s1.expected_length = b) ∧
      ¬ (dl > MAX_DATA_LENGTH) ∧
      (SerialProtocol_Send transmit s data dl timeout).calls.length = 1 := by
  have hle : b ≤ MAX_DATA_LENGTH := by simp only [MAX_DATA_LENGTH]; omega
  have hdle : dl ≤ MAX_DATA_LENGTH := by simp only [MAX_DATA_LENGTH]; omega
  have hstep := rxStep_head_found s b hst hle
  refine ⟨hstep, ?_, ?_, Nat.not_lt.2 hdle, ?_⟩
  · rw [hstep]
    exact fun h => absurd (show RX_STATE_LENGTH_RECEIVED = RX_STATE_IDLE from h) (by decide)
  · obtain ⟨t, e⟩ := process_single s b hs hc _ hstep
    exact ⟨_, e, rfl, rfl⟩
  · rw [send_calls transmit s data dl timeout hdle]
    rfl

theorem checksumProtocol_reachable : Reachable checksumProtocol := by
  have h0 : Reachable (SerialProtocol_Init staleProtocol 1) := Reachable.init _ _
  have h1 := Reachable.rx _ 0xAA h0 (by decide)
  have h2 := Reachable.rx _ 0x01 h1 (by decide)
  have h3 := Reachable.rx _ 0x07 h2 (by decide)
  exact Reachable.process _ checksumProtocol 1 h3 (by rfl)

theorem headFoundProtocol_reachable : Reachable headFoundProtocol := by
  have h0 : Reachable (SerialProtocol_Init staleProtocol 1) := Reachable.init _ _
  have h1 := Reachable.rx _ 0xAA h0 (by decide)
  have h2 := Reachable.process _
    { huart := 1, rx_buffer := [0xAA] ++ List.replicate 511 0, rx_head := 1, rx_tail := 1,
      rx_byte := 0xAA, rx_state := RX_STATE_HEAD_FOUND, expected_length := 0,
      received_length := 0, frame_data := List.replicate 255 0, frame_length := 0,
      frame_checksum := 0x55, frame_ready := 0 } 1 h1 (by rfl)
  have h3 := Reachable.rx _ 0x05 h2 (by decide)
  have e : deliver
      { huart := 1, rx_buffer := [0xAA] ++ List.replicate 511 0, rx_head := 1, rx_tail := 1,
        rx_byte := 0xAA, rx_state := RX_STATE_HEAD_FOUND, expected_length := 0,
        received_length := 0, frame_data := List.replicate 255 0, frame_length := 0,
        frame_checksum := 0x55, frame_ready := 0 } 0x05 = headFoundProtocol := by rfl
  rw [e] at h3
  exact h3

theorem headFoundProtocol_ringOK : RingOK headFoundProtocol :=
  ⟨by rw [headFoundProtocol, List.length_append, List.length_replicate]; rfl,
    by decide, by decide⟩

theorem C20_length_check_vacuous_witness :
    0x05 < 256 ∧ headFoundProtocol.rx_state = RX_STATE_HEAD_FOUND ∧
      RingOK headFoundProtocol ∧ ringContents headFoundProtocol = [0x05] ∧ 255 < 256 ∧
      (rxStep headFoundProtocol 0x05).2.rx_state ≠ RX_STATE_IDLE ∧
      (SerialProtocol_Send okTransmit headFoundProtocol [] 255 0).calls.length = 1 :=
  have h := C20_length_check_vacuous okTransmit headFoundProtocol [] 0x05 255 0
    (by decide) rfl headFoundProtocol_ringOK (by rfl) (by decide)
  ⟨by decide, rfl, headFoundProtocol_ringOK, by rfl, by decide, h.2.1, h.2.2.2.2⟩

/-! ## Resynchronisation claims -/

theorem wireFrame_eq_frameBytes (p : List Nat) :
    wireFrame p = frameBytes p.length p ((p.length + byteSum p) % 256) FRAME_TAIL := rfl

theorem rxStep_tail_bad (s : SerialProtocol_t) (b : Nat)
    (hst : s.rx_state = RX_STATE_DATA_RECEIVING)
    (hne : s.received_length ≠ s.expected_length) (hb : b ≠ FRAME_TAIL) :
    rxStep s b = (none, { s with rx_state := RX_STATE_IDLE }) := by
  simp [rxStep, hst, hne, hb]

/-- From Idle, the head byte, the length byte and a non-empty payload of that length
bring the parser to the point where it awaits the checksum. -/
theorem parse_upto_checksum (p rest : List Nat) (s : SerialProtocol_t)
    (hst : s.rx_state = RX_STATE_IDLE) (hp : p ≠ []) (hlen : p.length ≤ MAX_DATA_LENGTH) :
    parse ([FRAME_HEAD, p.length] ++ p ++ rest) s = parse rest (afterPayload s p) := by
  have hw : [FRAME_HEAD, p.length] ++ p ++ rest = FRAME_HEAD :: p.length :: (p ++ rest) := by
    simp
  rw [hw, parse_cons_none _ _ s _ (rxStep_idle_head s hst)]
  rw [parse_cons_none _ _ _ _ (rxStep_head_found _ p.length rfl hlen)]
  rw [parse_payload _ p _ rfl hp (by simp) hlen]
  rfl

theorem afterPayload_sum (s : SerialProtocol_t) (p : List Nat)
    (hfd : p.length ≤ s.frame_data.length) :
    ((afterPayload s p).expected_length
        + ((afterPayload s p).frame_data.take (afterPayload s p).expected_length).sum) % 256
      = (p.length + byteSum p) % 256 := by
  show (p.length + ((writeCells s.frame_data 0 p).take p.length).sum) % 256 = _
  rw [writeCells_take p _ hfd]
  rfl

/-- A frame whose checksum byte is wrong is dropped: the parser is back in Idle after
its tail byte. -/
theorem parse_bad_checksum (p rest : List Nat) (c : Nat) (s : SerialProtocol_t)
    (hst : s.rx_state = RX_STATE_IDLE) (hp : p ≠ []) (hlen : p.length ≤ MAX_DATA_LENGTH)
    (hfd : p.length ≤ s.frame_data.length) (hc : c ≠ (p.length + byteSum p) % 256) :
    parse (frameBytes p.length p c FRAME_TAIL ++ rest) s = parse rest (afterBadChecksum s p) := by
  have hw : frameBytes p.length p c FRAME_TAIL ++ rest
      = [FRAME_HEAD, p.length] ++ p ++ (c :: FRAME_TAIL :: rest) := by
    simp [frameBytes]
  rw [hw, parse_upto_checksum p _ s hst hp hlen]
  have hc2 : c ≠ ((afterPayload s p).expected_length
      + ((afterPayload s p).frame_data.take (afterPayload s p).expected_length).sum) % 256 := by
    rw [afterPayload_sum s p hfd]; exact hc
  rw [parse_cons_none _ _ _ _ (rxStep_checksum_bad (afterPayload s p) c rfl rfl hc2)]
  rw [parse_cons_none _ _ _ _ (rxStep_idle_other _ FRAME_TAIL rfl (by decide))]
  rfl

/-- A frame whose tail byte is wrong is dropped: the parser is back in Idle after that
byte. -/
theorem parse_bad_tail (p rest : List Nat) (t : Nat) (s : SerialProtocol_t)
    (hst : s.rx_state = RX_STATE_IDLE) (hp : p ≠ []) (hlen : p.length ≤ MAX_DATA_LENGTH)
    (hfd : p.length ≤ s.frame_data.length) (ht : t ≠ FRAME_TAIL) :
    parse (frameBytes p.length p ((p.length + byteSum p) % 256) t ++ rest) s
      = parse rest (afterBadTail s p) := by
  have hw : frameBytes p.length p ((p.length + byteSum p) % 256) t ++ rest
      = [FRAME_HEAD, p.length] ++ p ++ (((p.length + byteSum p) % 256) :: t :: rest) := by
    simp [frameBytes]
  rw [hw, parse_upto_checksum p _ s hst hp hlen]
  have h4 := rxStep_checksum_ok (afterPayload s p) rfl rfl
  rw [afterPayload_sum s p hfd] at h4
  rw [parse_cons_none _ _ _ _ h4]
  have hne : (p.length + 1) % 256 ≠ p.length := by
    simp only [MAX_DATA_LENGTH] at hlen; omega
  rw [parse_cons_none _ _ _ _ (rxStep_tail_bad _ t rfl hne ht)]
  rfl

/-- A run of bytes that the state machine consumes from `s` ending in `s1`, alone in the
ring: one `SerialProtocol_Process` call consumes it and returns 1. -/
theorem process_dropped (s s1 : SerialProtocol_t) (bad : List Nat) (hs : RingOK s)
    (hc : ringContents s = bad) (hbad : ∀ rest, parse (bad ++ rest) s = parse rest s1) :
    ∃ t, SerialProtocol_Process s = some (1, withTail s1 t) ∧ RingOK (withTail s1 t) ∧
      ringContents (withTail s1 t) = [] := by
  obtain ⟨e1, e2, e3⟩ := process_eq_parse s hs
  have hp : parse (ringContents s) s = (1, s1, []) := by
    rw [hc]
    have := hbad []
    rw [List.append_nil] at this
    rw [this]
    rfl
  rw [hp] at e1 e2 e3
  exact ⟨_, e1, e2, e3⟩

/-- A run of bytes that the state machine consumes from `s` ending in Idle, followed in
the ring by a well-formed frame: one `SerialProtocol_Process` call completes that frame,
and `SerialProtocol_GetReceivedFrame` delivers its payload. -/
theorem process_dropped_then_frame (s s1 : SerialProtocol_t) (bad q data : List Nat)
    (dl : Nat) (hs : RingOK s) (hc : ringContents s = bad ++ wireFrame q)
    (hbad : ∀ rest, parse (bad ++ rest) s = parse rest s1)
    (hst : s1.rx_state = RX_STATE_IDLE) (hq : q ≠ []) (hlen : q.length ≤ MAX_DATA_LENGTH)
    (hfd : q.length ≤ s1.frame_data.length) (hdata : q.length ≤ data.length) :
    ∃ s2, SerialProtocol_Process s = some (0, s2) ∧ ringContents s2 = [] ∧
      (SerialProtocol_GetReceivedFrame s2 data dl).ret = 0 ∧
      (SerialProtocol_GetReceivedFrame s2 data dl).data_len = q.length ∧
      (SerialProtocol_GetReceivedFrame s2 data dl).data.take q.length = q := by
  obtain ⟨e1, _, e3⟩ := process_eq_parse s hs
  have hp : parse (ringContents s) s = (0, afterFrame s1 q, []) := by
    rw [hc, hbad]
    have := parse_frame q [] s1 hst hq hlen hfd
    rw [List.append_nil] at this
    exact this
  rw [hp] at e1 e3
  obtain ⟨a1, a2, a3, _⟩ := get_afterFrame s1 q
    ((s.rx_tail + ((ringContents s).length - ([] : List Nat).length)) % RX_BUFFER_SIZE)
    data dl hfd hdata
  exact ⟨_, e1, e3, a1, a2, a3⟩

/-- A well-formed frame written into an empty ring while the parser is in Idle is
completed by the next `SerialProtocol_Process` call and delivered. -/
theorem written_frame_delivered (s : SerialProtocol_t) (q data : List Nat) (dl : Nat)
    (hs : RingOK s) (hc : ringContents s = []) (hst : s.rx_state = RX_STATE_IDLE)
    (hq : q ≠ []) (hlen : q.length ≤ MAX_DATA_LENGTH) (hfd : q.length ≤ s.frame_data.length)
    (hdata : q.length ≤ data.length) :
    ∃ s2, SerialProtocol_Process (writeAll s (wireFrame q)) = some (0, s2) ∧
      (SerialProtocol_GetReceivedFrame s2 data dl).ret = 0 ∧
      (SerialProtocol_GetReceivedFrame s2 data dl).data_len = q.length ∧
      (SerialProtocol_GetReceivedFrame s2 data dl).data.take q.length = q := by
  obtain ⟨w1, w2⟩ := writeAll_contents (wireFrame q) s hs
  obtain ⟨f1, _, _, f4, _⟩ := writeAll_fields (wireFrame q) s
  have hwl : (wireFrame q).length ≤ RX_BUFFER_SIZE - 1 := by
    simp only [MAX_DATA_LENGTH] at hlen
    simp [wireFrame]; omega
  rw [hc, List.nil_append, lastN_of_length_le _ _ hwl] at w2
  have hfd2 : q.length ≤ (writeAll s (wireFrame q)).frame_data.length := by rw [f4]; exact hfd
  obtain ⟨t, e1, _, _⟩ := process_frame _ [] q [] w1 (f1.trans hst) (by rw [w2]; simp)
    (by simp) hq hlen hfd2
  obtain ⟨a1, a2, a3, _⟩ := get_afterFrame _ q t data dl hfd2 hdata
  exact ⟨_, e1, a1, a2, a3⟩

/-- A run of bytes the state machine drops from Idle (ending in Idle again), received by a
freshly initialised protocol: alone it makes `SerialProtocol_Process` return 1 with no
frame pending and the ring empty, and a well-formed frame written afterwards is
delivered; with the well-formed frame directly behind it in the ring, one
`SerialProtocol_Process` call delivers that frame. -/
theorem fresh_dropped (p0 : SerialProtocol_t) (h : Nat) (bad q data : List Nat) (dl : Nat)
    (drop : SerialProtocol_t → SerialProtocol_t)
    (hdrop : ∀ s rest, s.rx_state = RX_STATE_IDLE → s.frame_data.length = MAX_DATA_LENGTH →
      parse (bad ++ rest) s = parse rest (drop s))
    (hidle : ∀ s, (drop s).rx_state = RX_STATE_IDLE)
    (hready : ∀ s, (drop s).frame_ready = s.frame_ready)
    (hfdl : ∀ s, (drop s).frame_data.length = s.frame_data.length)
    (hq1 : 1 ≤ q.length) (hq2 : q.length ≤ MAX_DATA_LENGTH)
    (hfit : bad.length + (wireFrame q).length ≤ RX_BUFFER_SIZE - 1)
    (hdata : q.length ≤ data.length) :
    (∃ s1, SerialProtocol_Process (writeAll (SerialProtocol_Init p0 h) bad) = some (1, s1) ∧
      s1.frame_ready = 0 ∧ s1.rx_state = RX_STATE_IDLE ∧ ringContents s1 = [] ∧
      ∃ s3, SerialProtocol_Process (writeAll s1 (wireFrame q)) = some (0, s3) ∧
        (SerialProtocol_GetReceivedFrame s3 data dl).ret = 0 ∧
        (SerialProtocol_GetReceivedFrame s3 data dl).data_len = q.length ∧
        (SerialProtocol_GetReceivedFrame s3 data dl).data.take q.length = q) ∧
    (∃ s2, SerialProtocol_Process (writeAll (SerialProtocol_Init p0 h) (bad ++ wireFrame q))
        = some (0, s2) ∧ ringContents s2 = [] ∧
      (SerialProtocol_GetReceivedFrame s2 data dl).ret = 0 ∧
      (SerialProtocol_GetReceivedFrame s2 data dl).data_len = q.length ∧
      (SerialProtocol_GetReceivedFrame s2 data dl).data.take q.length = q) := by
  have hqne : q ≠ [] := by
    intro h0; rw [h0] at hq1; simp at hq1
  constructor
  · obtain ⟨k1, k2, k3, k4, k5⟩ := fresh_written p0 h bad (by omega)
    obtain ⟨t, e1, ok1, c1⟩ := process_dropped _ (drop _) bad k1 k2
      (fun rest => hdrop _ rest k3 k4)
    have hfd : q.length ≤ (withTail (drop (writeAll (SerialProtocol_Init p0 h) bad)) t).frame_data.length := by
      show q.length ≤ (drop (writeAll (SerialProtocol_Init p0 h) bad)).frame_data.length
      rw [hfdl, k4]; exact hq2
    refine ⟨_, e1, (hready _).trans k5, hidle _, c1, ?_⟩
    exact written_frame_delivered _ q data dl ok1 c1 (hidle _) hqne hq2 hfd hdata
  · obtain ⟨k1, k2, k3, k4, _⟩ := fresh_written p0 h (bad ++ wireFrame q)
      (by rw [List.length_append]; exact hfit)
    exact process_dropped_then_frame _ (drop _) bad q data dl k1 k2
      (fun rest => hdrop _ rest k3 k4) (hidle _) hqne hq2 (by rw [hfdl, k4]; exact hq2) hdata

theorem fresh_bad_checksum (p : List Nat) (c : Nat) (hp1 : 1 ≤ p.length)
    (hp2 : p.length ≤ MAX_DATA_LENGTH)
    (hc : c ≠ (p.length + byteSum p) % 256) :
    ∀ s rest, s.rx_state = RX_STATE_IDLE → s.frame_data.length = MAX_DATA_LENGTH →
      parse (frameBytes p.length p c FRAME_TAIL ++ rest) s
        = parse rest (afterBadChecksum s p) := by
  intro s rest hst hfd
  have hpne : p ≠ [] := by
    intro h0; rw [h0] at hp1; simp at hp1
  exact parse_bad_checksum p rest c s hst hpne hp2 (by rw [hfd]; exact hp2) hc

theorem fresh_bad_tail (p : List Nat) (t : Nat) (hp1 : 1 ≤ p.length)
    (hp2 : p.length ≤ MAX_DATA_LENGTH) (ht : t ≠ FRAME_TAIL) :
    ∀ s rest, s.rx_state = RX_STATE_IDLE → s.frame_data.length = MAX_DATA_LENGTH →
      parse (frameBytes p.length p ((p.length + byteSum p) % 256) t ++ rest) s
        = parse rest (afterBadTail s p) := by
  intro s rest hst hfd
  have hpne : p ≠ [] := by
    intro h0; rw [h0] at hp1; simp at hp1
  exact parse_bad_tail p rest t s hst hpne hp2 (by rw [hfd]; exact hp2) ht

theorem frameBytes_length (len : Nat) (p : List Nat) (c t : Nat) :
    (frameBytes len p c t).length = p.length + 4 := by
  simp [frameBytes]

/-- Claim C17. Checksum and tail corruption are rejected for non-empty payloads. For every
payload `p` of 1 to 255 bytes, every `c` different from `(|p| + sum of p) mod 256` and
every `t` different from TAIL: each of `HEAD, |p|, p, c, TAIL` and
`HEAD, |p|, p, (|p| + sum of p) mod 256, t`, received by a freshly initialised protocol,
makes `SerialProtocol_Process` return 1 with `frame_ready = 0`, the parser in Idle and
the ring empty; a well-formed frame with non-empty payload `q` written after that is
completed by the next call and delivered as `q`; and when that frame stands directly
behind the corrupted one in the ring (all within 511 bytes), one call consumes both and
delivers `q`. -/
theorem C17_corrupt_checksum_or_tail_rejected (p0 : SerialProtocol_t) (h : Nat)
    (p q data : List Nat) (c t dl : Nat)
    (hp1 : 1 ≤ p.length) (hp2 : p.length ≤ MAX_DATA_LENGTH)
    (hc : c ≠ (p.length + byteSum p) % 256) (ht : t ≠ FRAME_TAIL)
    (hq1 : 1 ≤ q.length) (hq2 : q.length ≤ MAX_DATA_LENGTH)
    (hfit : (p.length + 4) + (wireFrame q).length ≤ RX_BUFFER_SIZE - 1)
    (hdata : q.length ≤ data.length) :
    ((∃ s1, SerialProtocol_Process
          (writeAll (SerialProtocol_Init p0 h) (frameBytes p.length p c FRAME_TAIL))
          = some (1, s1) ∧
        s1.frame_ready = 0 ∧ s1.rx_state = RX_STATE_IDLE ∧ ringContents s1 = [] ∧
        ∃ s3, SerialProtocol_Process (writeAll s1 (wireFrame q)) = some (0, s3) ∧
          (SerialProtocol_GetReceivedFrame s3 data dl).ret = 0 ∧
          (SerialProtocol_GetReceivedFrame s3 data dl).data_len = q.length ∧
          (SerialProtocol_GetReceivedFrame s3 data dl).data.take q.length = q) ∧
      (∃ s2, SerialProtocol_Process
          (writeAll (SerialProtocol_Init p0 h)
            (frameBytes p.length p c FRAME_TAIL ++ wireFrame q)) = some (0, s2) ∧
        ringContents s2 = [] ∧
        (SerialProtocol_GetReceivedFrame s2 data dl).ret = 0 ∧
        (SerialProtocol_GetReceivedFrame s2 data dl).data_len = q.length ∧
        (SerialProtocol_GetReceivedFrame s2 data dl).data.take q.length = q)) ∧
    ((∃ s1, SerialProtocol_Process
          (writeAll (SerialProtocol_Init p0 h)
            (frameBytes p.length p ((p.length + byteSum p) % 256) t)) = some (1, s1) ∧
        s1.frame_ready = 0 ∧ s1.rx_state = RX_STATE_IDLE ∧ ringContents s1 = [] ∧
        ∃ s3, SerialProtocol_Process (writeAll s1 (wireFrame q)) = some (0, s3) ∧
          (SerialProtocol_GetReceivedFrame s3 data dl).ret = 0 ∧
          (SerialProtocol_GetReceivedFrame s3 data dl).data_len = q.length ∧
          (SerialProtocol_GetReceivedFrame s3 data dl).data.take q.length = q) ∧
      (∃ s2, SerialProtocol_Process
          (writeAll (SerialProtocol_Init p0 h)
            (frameBytes p.length p ((p.length + byteSum p) % 256) t ++ wireFrame q))
          = some (0, s2) ∧
        ringContents s2 = [] ∧
        (SerialProtocol_GetReceivedFrame s2 data dl).ret = 0 ∧
        (SerialProtocol_GetReceivedFrame s2 data dl).data_len = q.length ∧
        (SerialProtocol_GetReceivedFrame s2 data dl).data.take q.length = q)) := by
  constructor
  · exact fresh_dropped p0 h _ q data dl (fun s => afterBadChecksum s p)
      (fresh_bad_checksum p c hp1 hp2 hc) (fun _ => rfl) (fun _ => rfl)
      (fun s => writeCells_length p _ _) hq1 hq2
      (by rw [frameBytes_length]; exact hfit) hdata
  · exact fresh_dropped p0 h _ q data dl (fun s => afterBadTail s p)
      (fresh_bad_tail p t hp1 hp2 ht) (fun _ => rfl) (fun _ => rfl)
      (fun s => writeCells_length p _ _) hq1 hq2
      (by rw [frameBytes_length]; exact hfit) hdata

theorem C17_corrupt_checksum_or_tail_rejected_witness :
    1 ≤ [0x01].length ∧ [0x01].length ≤ MAX_DATA_LENGTH ∧
      0x03 ≠ ([0x01].length + byteSum [0x01]) % 256 ∧ 0xAA ≠ FRAME_TAIL ∧
      1 ≤ [0x07].length ∧ [0x07].length ≤ MAX_DATA_LENGTH ∧
      ([0x01].length + 4) + (wireFrame [0x07]).length ≤ RX_BUFFER_SIZE - 1 ∧
      [0x07].length ≤ [0].length ∧
      (∃ s2, SerialProtocol_Process
          (writeAll (SerialProtocol_Init staleProtocol 1)
            (frameBytes [0x01].length [0x01] 0x03 FRAME_TAIL ++ wireFrame [0x07]))
          = some (0, s2) ∧
        ringContents s2 = [] ∧
        (SerialProtocol_GetReceivedFrame s2 [0] 0).ret = 0 ∧
        (SerialProtocol_GetReceivedFrame s2 [0] 0).data_len = [0x07].length ∧
        (SerialProtocol_GetReceivedFrame s2 [0] 0).data.take [0x07].length = [0x07]) :=
  ⟨by decide, by decide, by decide, by decide, by decide, by decide, by decide, by decide,
    (C17_corrupt_checksum_or_tail_rejected staleProtocol 1 [0x01] [0x07] [0] 0x03 0xAA 0
      (by decide) (by decide) (by decide) (by decide) (by decide) (by decide) (by decide)
      (by decide)).1.2⟩

/-- Claim C13 as stated fails for the LEN position. The frame of payload `01` is
`AA 01 01 02 BB`; with its LEN byte replaced by `05` and the valid frame of payload `07`
(`AA 01 07 08 BB`) directly behind it, a freshly initialised protocol takes the next five
bytes as payload, rejects the sixth as checksum and is left with nothing: the call
returns 1 with the ring empty and no frame pending, and
`SerialProtocol_GetReceivedFrame` returns -1. -/
theorem C13_corrupt_length_swallows_next_frame :
    wireFrame [0x01] = [0xAA, 0x01, 0x01, 0x02, 0xBB] ∧
      wireFrame [0x07] = [0xAA, 0x01, 0x07, 0x08, 0xBB] ∧
      (SerialProtocol_Process
          (writeAll (SerialProtocol_Init staleProtocol 1)
            ([0xAA, 0x05, 0x01, 0x02, 0xBB] ++ wireFrame [0x07]))).map
          (fun r => (r.1, r.2.frame_ready, ringContents r.2,
            (SerialProtocol_GetReceivedFrame r.2 [0] 0).ret))
        = some (1, 0, [], -1) := by
  refine ⟨by decide, by decide, ?_⟩
  rfl

/-- A corrupted LEN byte can also make the parser publish a frame out of the corrupted
bytes: the frame of payload `05 06 BB` with its LEN byte 3 replaced by 1 delivers the
payload `05`. -/
theorem corrupt_length_publishes_frame :
    wireFrame [0x05, 0x06, 0xBB] = [0xAA, 0x03, 0x05, 0x06, 0xBB, 0xC9, 0xBB] ∧
      (SerialProtocol_Process
          (writeAll (SerialProtocol_Init staleProtocol 1)
            ([0xAA, 0x01, 0x05, 0x06, 0xBB, 0xC9, 0xBB] ++ wireFrame [0x07]))).map
          (fun r => (r.1, (SerialProtocol_GetReceivedFrame r.2 [0] 0).data_len,
            (SerialProtocol_GetReceivedFrame r.2 [0] 0).data))
        = some (0, 1, [0x05]) := by
  refine ⟨by decide, ?_⟩
  rfl

/-- Claim C13, amended to the CHECKSUM and TAIL positions and non-empty payloads. For every
frame `F1` with a payload `p1` of 1 to 255 bytes in which exactly one of the CHECKSUM byte
and the TAIL byte is replaced by a different value, and every valid frame `F2` with a
payload `p2` of 1 to 255 bytes directly behind it, both within 511 bytes: a freshly
initialised protocol that holds `F1` alone returns 1 from `SerialProtocol_Process` with
no frame pending and the parser in Idle; holding `F1` and `F2` it returns 0 with the
ring empty, and `SerialProtocol_GetReceivedFrame` delivers the payload of `F2`. -/
theorem C13_resync_after_corrupt_checksum_or_tail (p0 : SerialProtocol_t) (h : Nat)
    (p1 p2 data : List Nat) (c t dl : Nat)
    (h11 : 1 ≤ p1.length) (h12 : p1.length ≤ MAX_DATA_LENGTH)
    (hcorrupt : (c ≠ (p1.length + byteSum p1) % 256 ∧ t = FRAME_TAIL) ∨
      (c = (p1.length + byteSum p1) % 256 ∧ t ≠ FRAME_TAIL))
    (h21 : 1 ≤ p2.length) (h22 : p2.length ≤ MAX_DATA_LENGTH)
    (hfit : (frameBytes p1.length p1 c t).length + (wireFrame p2).length ≤ RX_BUFFER_SIZE - 1)
    (hdata : p2.length ≤ data.length) :
    (∃ s1, SerialProtocol_Process
        (writeAll (SerialProtocol_Init p0 h) (frameBytes p1.length p1 c t)) = some (1, s1) ∧
      s1.frame_ready = 0 ∧ s1.rx_state = RX_STATE_IDLE) ∧
    (∃ s2, SerialProtocol_Process
        (writeAll (SerialProtocol_Init p0 h) (frameBytes p1.length p1 c t ++ wireFrame p2))
        = some (0, s2) ∧
      ringContents s2 = [] ∧
      (SerialProtocol_GetReceivedFrame s2 data dl).ret = 0 ∧
      (SerialProtocol_GetReceivedFrame s2 data dl).data_len = p2.length ∧
      (SerialProtocol_GetReceivedFrame s2 data dl).data.take p2.length = p2) := by
  rcases hcorrupt with ⟨hc, rfl⟩ | ⟨rfl, ht⟩
  · obtain ⟨⟨s1, e1, a1, a2, _⟩, r2⟩ := fresh_dropped p0 h _ p2 data dl
      (fun s => afterBadChecksum s p1)
      (fresh_bad_checksum p1 c h11 h12 hc) (fun _ => rfl) (fun _ => rfl)
      (fun s => writeCells_length p1 _ _) h21 h22 hfit hdata
    exact ⟨⟨s1, e1, a1, a2⟩, r2⟩
  · obtain ⟨⟨s1, e1, a1, a2, _⟩, r2⟩ := fresh_dropped p0 h _ p2 data dl
      (fun s => afterBadTail s p1)
      (fresh_bad_tail p1 t h11 h12 ht) (fun _ => rfl) (fun _ => rfl)
      (fun s => writeCells_length p1 _ _) h21 h22 hfit hdata
    exact ⟨⟨s1, e1, a1, a2⟩, r2⟩

theorem C13_resync_after_corrupt_checksum_or_tail_witness :
    1 ≤ [0x01].length ∧ [0x01].length ≤ MAX_DATA_LENGTH ∧
      ((0x02 ≠ ([0x01].length + byteSum [0x01]) % 256 ∧ 0x00 = FRAME_TAIL) ∨
        (0x02 = ([0x01].length + byteSum [0x01]) % 256 ∧ 0x00 ≠ FRAME_TAIL)) ∧
      1 ≤ [0x07].length ∧ [0x07].length ≤ MAX_DATA_LENGTH ∧
      (frameBytes [0x01].length [0x01] 0x02 0x00).length + (wireFrame [0x07]).length
        ≤ RX_BUFFER_SIZE - 1 ∧
      [0x07].length ≤ [0].length ∧
      (∃ s2, SerialProtocol_Process
          (writeAll (SerialProtocol_Init staleProtocol 1)
            (frameBytes [0x01].length [0x01] 0x02 0x00 ++ wireFrame [0x07])) = some (0, s2) ∧
        ringContents s2 = [] ∧
        (SerialProtocol_GetReceivedFrame s2 [0] 0).ret = 0 ∧
        (SerialProtocol_GetReceivedFrame s2 [0] 0).data_len = [0x07].length ∧
        (SerialProtocol_GetReceivedFrame s2 [0] 0).data.take [0x07].length = [0x07]) :=
  ⟨by decide, by decide, by decide, by decide, by decide, by decide, by decide,
    (C13_resync_after_corrupt_checksum_or_tail staleProtocol 1 [0x01] [0x07] [0] 0x02 0x00 0
      (by decide) (by decide) (by decide) (by decide) (by decide) (by decide)
      (by decide)).2⟩

end SerialProtocol
